import Mathlib

/-!
Verification development for the crossplane-plan repository.

The Go source is shallowly embedded in Lean: pure functions become Lean
functions, Kubernetes unstructured objects become a recursive JSON-like
value type, the debounced work queue becomes a discrete-time event
simulation, and the GitHub comment API becomes explicit state passing.
Machine integers are modelled as Int with the 64-bit range checks made
explicit where the Go code can overflow (strconv.Atoi).
-/

namespace CrossplanePlan

/-! ## Basic string-map helpers (Go map[string]string as ordered assoc list) -/

/-- Lookup in an association list, mirroring a Go map read (first match). -/
def lookupStr : List (String × String) → String → Option String
  | [], _ => none
  | (k, v) :: rest, key => if k = key then some v else lookupStr rest key

/-! ## strconv.Atoi

Embeds Go `strconv.Atoi`: optional leading sign, all remaining characters
decimal digits, value within the 64-bit signed range; any violation is an
error (modelled as `none`). -/

/-- Numeric value of a digit-character list, most significant first. -/
def digitsVal (cs : List Char) : Nat :=
  cs.foldl (fun acc c => acc * 10 + (c.toNat - '0'.toNat)) 0

/-- Go strconv.Atoi: returns the parsed 64-bit integer or `none` on error. -/
def atoi (s : String) : Option Int :=
  let cs := s.toList
  match cs with
  | [] => none
  | c :: rest =>
    let signed : Int × List Char :=
      if c = '-' then (-1, rest) else if c = '+' then (1, rest) else (1, cs)
    let sign := signed.1
    let digits := signed.2
    if digits.isEmpty then none
    else if digits.all (·.isDigit) then
      let v : Int := sign * (digitsVal digits : Int)
      if v < -(2 ^ 63) ∨ v > 2 ^ 63 - 1 then none else some v
    else none

/-! ## Minimal unstructured XR view used by the detectors

The three detector variants only read the XR name, labels and
metadata key/value annotations, so the embedding keeps exactly those. -/

/-- The slice of a Kubernetes unstructured object the PR detectors read. -/
structure UXR where
  name : String
  labels : List (String × String)
  annots : List (String × String)
  deriving Repr, DecidableEq

/-! ## Label detector (pkg/detector/label_detector.go) -/

/-- Default label key from label_detector.go. -/
def defaultLabelKey : String := "millstone.tech/pr-number"

/-- LabelDetector.DetectPR: read the label, Atoi it, 0 on any failure. -/
def labelDetectPR (labelKey : String) (xr : UXR) : Int :=
  match lookupStr xr.labels labelKey with
  | none => 0
  | some prValue =>
    match atoi prValue with
    | none => 0
    | some prNumber => prNumber

/-- LabelDetector.GetBaseName: always the original name. -/
def labelGetBaseName (xr : UXR) : String := xr.name

/-! ## Annotation detector (pkg/detector/annotation_detector.go) -/

/-- Default key from annotation_detector.go. -/
def defaultAnnotKey : String := "millstone.tech/preview-pr"

/-- AnnotationDetector.DetectPR: read the value, Atoi it, 0 on any failure. -/
def annotDetectPR (annotKey : String) (xr : UXR) : Int :=
  match lookupStr xr.annots annotKey with
  | none => 0
  | some prValue =>
    match atoi prValue with
    | none => 0
    | some prNumber => prNumber

/-- AnnotationDetector.GetBaseName: always the original name. -/
def annotGetBaseName (xr : UXR) : String := xr.name

/-! ## Name detector (name_detector.go)

NewNameDetector turns the user pattern into an anchored regular
expression by replacing every literal token "\x7bnumber\x7d" with a
digit-capture group and every literal "*" with a dot-star (with NO
capture group), then matches with FindStringSubmatch.  The embedding
tokenizes the pattern directly; the token matcher below implements the
anchored regex semantics (greedy quantifiers with backtracking, which
agrees with Go's leftmost-first submatch semantics for this token
language) for patterns whose remaining characters are regex-literal,
which holds for the shipped default pattern. -/

/-- One compiled element of a name pattern. -/
inductive Tok where
  | lit (c : Char)
  | num
  | star
  deriving Repr, DecidableEq

/-- Tokenize a name pattern: "\x7bnumber\x7d" becomes a digit capture,
"*" becomes dot-star, anything else is a literal character. -/
def toksOf : List Char → List Tok
  | [] => []
  | '{' :: 'n' :: 'u' :: 'm' :: 'b' :: 'e' :: 'r' :: '}' :: rest => .num :: toksOf rest
  | '*' :: rest => .star :: toksOf rest
  | c :: rest => .lit c :: toksOf rest

/-- Greedy backtracking for a digit-capture group: try consuming `k`
digits, largest first, never zero. `f` matches the rest of the tokens. -/
def tryNum (f : List Char → Option (List String)) (s : List Char) : Nat → Option (List String)
  | 0 => none
  | k + 1 =>
    match f (s.drop (k + 1)) with
    | some caps => some ((s.take (k + 1)).asString :: caps)
    | none => tryNum f s k

/-- Greedy backtracking for dot-star: try consuming `k` characters,
largest first, down to zero. -/
def tryStar (f : List Char → Option (List String)) (s : List Char) : Nat → Option (List String)
  | 0 => f s
  | k + 1 =>
    match f (s.drop (k + 1)) with
    | some caps => some caps
    | none => tryStar f s k

/-- Anchored match of a token list against a name; returns the list of
capture-group strings on success. -/
def matchToks : List Tok → List Char → Option (List String)
  | [], s => if s.isEmpty then some [] else none
  | .lit c :: ts, s =>
    match s with
    | [] => none
    | d :: s' => if d = c then matchToks ts s' else none
  | .num :: ts, s => tryNum (fun s' => matchToks ts s') s (s.takeWhile (·.isDigit)).length
  | .star :: ts, s => tryStar (fun s' => matchToks ts s') s s.length


/-! ## JSON-like values (Kubernetes unstructured objects)

Composite resources are schema-less `map[string]interface \x7b\x7d`
documents; the sanitizer and the preview transform navigate them by
dotted field paths.  The embedding is the usual recursive tagged sum. -/

/-- A dynamic JSON-like value (Go interface value inside unstructured). -/
inductive J where
  | null
  | boolv (v : Bool)
  | num (v : Int)
  | str (v : String)
  | arr (xs : List J)
  | obj (fs : List (String × J))
  deriving Repr

mutual

/-- Structural boolean equality on dynamic values (Go reflect.DeepEqual). -/
def J.beq : J → J → Bool
  | .null, .null => true
  | .boolv a, .boolv b => a == b
  | .num a, .num b => a == b
  | .str a, .str b => a == b
  | .arr xs, .arr ys => J.beqArr xs ys
  | .obj fs, .obj gs => J.beqObj fs gs
  | _, _ => false

/-- Elementwise equality on value lists. -/
def J.beqArr : List J → List J → Bool
  | [], [] => true
  | x :: xs, y :: ys => J.beq x y && J.beqArr xs ys
  | _, _ => false

/-- Elementwise equality on field lists. -/
def J.beqObj : List (String × J) → List (String × J) → Bool
  | [], [] => true
  | (k, v) :: xs, (k', v') :: ys => k == k' && J.beq v v' && J.beqObj xs ys
  | _, _ => false

end

mutual

theorem J.eq_of_beq : ∀ {a b : J}, J.beq a b = true → a = b
  | .null, .null, _ => rfl
  | .boolv a, .boolv b, h => congrArg J.boolv (by simpa [J.beq] using h)
  | .num a, .num b, h => congrArg J.num (by simpa [J.beq] using h)
  | .str a, .str b, h => congrArg J.str (by simpa [J.beq] using h)
  | .arr xs, .arr ys, h => congrArg J.arr (J.eqArr_of_beq (by simpa [J.beq] using h))
  | .obj fs, .obj gs, h => congrArg J.obj (J.eqObj_of_beq (by simpa [J.beq] using h))

theorem J.eqArr_of_beq : ∀ {xs ys : List J}, J.beqArr xs ys = true → xs = ys
  | [], [], _ => rfl
  | x :: xs, y :: ys, h => by
    have h' : J.beq x y = true ∧ J.beqArr xs ys = true := by simpa [J.beqArr] using h
    rw [J.eq_of_beq h'.1, J.eqArr_of_beq h'.2]

theorem J.eqObj_of_beq : ∀ {xs ys : List (String × J)}, J.beqObj xs ys = true → xs = ys
  | [], [], _ => rfl
  | (k, v) :: xs, (k', v') :: ys, h => by
    have h' : (k = k' ∧ J.beq v v' = true) ∧ J.beqObj xs ys = true := by
      simpa [J.beqObj] using h
    rw [h'.1.1, J.eq_of_beq h'.1.2, J.eqObj_of_beq h'.2]

end

mutual

theorem J.beq_refl : ∀ (a : J), J.beq a a = true
  | .null => rfl
  | .boolv a => by simp [J.beq]
  | .num a => by simp [J.beq]
  | .str a => by simp [J.beq]
  | .arr xs => by simp [J.beq, J.beqArr_refl xs]
  | .obj fs => by simp [J.beq, J.beqObj_refl fs]

theorem J.beqArr_refl : ∀ (xs : List J), J.beqArr xs xs = true
  | [] => rfl
  | x :: xs => by simp [J.beqArr, J.beq_refl x, J.beqArr_refl xs]

theorem J.beqObj_refl : ∀ (xs : List (String × J)), J.beqObj xs xs = true
  | [] => rfl
  | (k, v) :: xs => by simp [J.beqObj, J.beq_refl v, J.beqObj_refl xs]

end

instance : DecidableEq J := fun a b =>
  if h : J.beq a b = true then .isTrue (J.eq_of_beq h)
  else .isFalse (fun he => h (he ▸ J.beq_refl a))

/-! ## Dotted field-path navigation (k8s.io unstructured helpers) -/

/-- Lookup a field of an object field list (Go map read). -/
def lookupField : List (String × J) → String → Option J
  | [], _ => none
  | (k, v) :: rest, key => if k = key then some v else lookupField rest key

/-- Rewrite the value stored under a key, leaving other fields alone. -/
def updateField (fs : List (String × J)) (key : String) (f : J → J) : List (String × J) :=
  fs.map (fun kv => (kv.1, if kv.1 = key then f kv.2 else kv.2))

/-- Delete a key from an object field list (Go map delete). -/
def removeKey : List (String × J) → String → List (String × J)
  | [], _ => []
  | (k1, v) :: rest, key =>
    if k1 = key then removeKey rest key else (k1, v) :: removeKey rest key

/-- Replace the value under a key, or append the binding when absent
(Go map assignment). -/
def upsertField : List (String × J) → String → J → List (String × J)
  | [], key, v => [(key, v)]
  | (k1, w) :: rest, key, v =>
    if k1 = key then (key, v) :: rest else (k1, w) :: upsertField rest key v

/-- unstructured.NestedFieldNoCopy: walk maps along the path; `none`
both when a segment is missing and when an intermediate value is not a
map (the Go error case, treated identically by all callers). -/
def getPath : J → List String → Option J
  | v, [] => some v
  | .obj fs, k :: ks =>
    match lookupField fs k with
    | some v => getPath v ks
    | none => none
  | _, _ :: _ => none

/-- unstructured.RemoveNestedField: walk maps to the parent of the last
segment and delete it; abort without change when an intermediate is
missing or not a map. -/
def removePath : J → List String → J
  | v, [] => v
  | .obj fs, [k] => .obj (removeKey fs k)
  | .obj fs, k :: k' :: ks =>
    match lookupField fs k with
    | some (.obj _) => .obj (updateField fs k (fun v => removePath v (k' :: ks)))
    | _ => .obj fs
  | v, _ :: _ => v

/-- unstructured.SetNestedField: walk maps creating missing
intermediates; abort without change when an existing intermediate is
not a map (the Go code ignores that error). -/
def setPath : J → List String → J → J
  | _, [], v => v
  | .obj fs, [k], v => .obj (upsertField fs k v)
  | .obj fs, k :: k' :: ks, v =>
    match lookupField fs k with
    | some (.obj _) => .obj (updateField fs k (fun w => setPath w (k' :: ks) v))
    | some _ => .obj fs
    | none => .obj (fs ++ [(k, setPath (J.obj []) (k' :: ks) v)])
  | w, _ :: _, _ => w

/-- Character-level split on '.', accumulator-style (strings.Split). -/
def splitDot : List Char → List Char → List String
  | [], acc => [acc.reverse.asString]
  | c :: rest, acc =>
    if c = '.' then acc.reverse.asString :: splitDot rest []
    else splitDot rest (c :: acc)

/-- Split a dotted rule path into its segments (strings.Split on "."). -/
def splitPath (p : String) : List String := splitDot p.toList []

/-! ## Configuration (pkg/config) -/

/-- config.StripRule; a nil Equals interface value is `none`, an unset
Pattern is the empty string, exactly as in the Go zero values. -/
structure StripRule where
  path : String
  equals : Option J := none
  pat : String := ""
  reason : String
  deriving Repr, DecidableEq

/-- config.DiffConfig. -/
structure DiffConfig where
  stripDefaults : Bool
  stripRules : List StripRule
  deriving Repr, DecidableEq

/-- config.Config (CLI-only fields included with their zero values). -/
structure Config where
  detectionStrategy : String
  namePattern : String
  githubRepo : String := ""
  dryRun : Bool := false
  labelKey : String
  annotKey : String
  diff : DiffConfig
  deriving Repr, DecidableEq

/-- config.DefaultConfig. -/
def DefaultConfig : Config :=
  { detectionStrategy := "name"
    namePattern := "pr-{number}-*"
    labelKey := "millstone.tech/pr-number"
    annotKey := "millstone.tech/preview-pr"
    diff := { stripDefaults := true, stripRules := [] } }

/-- config.DefaultStripRules, exactly as returned by the Go function:
the management-policies equals rule and the ArgoCD annotations pattern
rule. -/
def DefaultStripRules : List StripRule :=
  [ { path := "spec.managementPolicies"
      equals := some (J.arr [J.str "Observe"])
      reason := "PR previews forced to read-only mode for safety" },
    { path := "metadata.annotations"
      pat := "^argocd\\.argoproj\\.io/.*"
      reason := "ArgoCD-managed tracking metadata" } ]

/-- Config.GetAllStripRules: defaults (when enabled) then user rules. -/
def GetAllStripRules (c : Config) : List StripRule :=
  (if c.diff.stripDefaults then DefaultStripRules else []) ++ c.diff.stripRules

/-- Outcome of one os.ReadFile call in the LoadConfig embedding. -/
inductive ReadResult where
  | notExist
  | ioError
  | okData (data : String)
  deriving Repr, DecidableEq

/-- config.LoadConfig over an abstract filesystem `fs` and YAML
decoder `parse` (yaml.Unmarshal merges into the default config, so the
decoder is a config updater; `none` is a YAML error).  Empty path or a
missing file yields the defaults without error; a read error or a YAML
error is reported. -/
def LoadConfig (fs : String → ReadResult) (parse : String → Option (Config → Config))
    (path : String) : Except String Config :=
  if path = "" then .ok DefaultConfig
  else
    match fs path with
    | .notExist => .ok DefaultConfig
    | .ioError => .error "failed to read config file"
    | .okData data =>
      match parse data with
      | none => .error "failed to parse config file"
      | some upd => .ok (upd DefaultConfig)

/-! ## Startup validation (cmd/crossplane-plan/main.go, lines 71-91)

The flag-validation phase of main: it exits with code 1 when the GitHub
repository flag is empty, and, unless dry-run is set, when none of the
three authentication modes is configured.  The result is the exit code
it forces, or `none` when startup proceeds past validation. -/

/-- Flag values reaching main's validation phase. -/
structure StartupFlags where
  githubRepo : String
  dryRun : Bool
  githubToken : String
  githubCredentials : String
  githubAppID : String
  githubInstallID : String
  githubAppKeyPath : String
  deriving Repr, DecidableEq

/-- Validation phase of main (lines 71-91): Some 1 means os.Exit(1). -/
def validateStartup (f : StartupFlags) : Option Nat :=
  if f.githubRepo = "" then some 1
  else
    let hasToken := f.githubToken ≠ ""
    let hasCredentials := f.githubCredentials ≠ ""
    let hasAppCreds := f.githubAppID ≠ "" ∧ f.githubInstallID ≠ "" ∧ f.githubAppKeyPath ≠ ""
    if ¬f.dryRun ∧ ¬hasToken ∧ ¬hasCredentials ∧ ¬hasAppCreds then some 1
    else none

/-- A compiled name detector (the anchored token list). -/
structure NameDetector where
  toks : List Tok
  deriving Repr

/-- NewNameDetector: compile the pattern string. -/
def NewNameDetector (pattern : String) : NameDetector :=
  ⟨toksOf pattern.toList⟩

/-- regexp FindStringSubmatch against the anchored pattern: empty list
when there is no match, otherwise the full match followed by the
capture groups. -/
def findStringSubmatch (nd : NameDetector) (name : String) : List String :=
  match matchToks nd.toks name.toList with
  | none => []
  | some caps => name :: caps

/-- NameDetector.DetectPR: capture group 1 parsed with Atoi, 0 on any
failure. -/
def nameDetectPR (nd : NameDetector) (xr : UXR) : Int :=
  let ms := findStringSubmatch nd xr.name
  if ms.length < 2 then 0
  else
    match ms.get? 1 with
    | none => 0
    | some m =>
      match atoi m with
      | none => 0
      | some prNumber => prNumber

/-- NameDetector.GetBaseName: capture group 2 when the compiled pattern
produced at least two groups, otherwise the original name. -/
def nameGetBaseName (nd : NameDetector) (xr : UXR) : String :=
  let ms := findStringSubmatch nd xr.name
  if ms.length < 2 then xr.name
  else
    match ms.get? 2 with
    | some m => m
    | none => xr.name

/-! ## Field sanitizer (pkg/differ sanitizer)

Regular-expression compilation and matching are delegated to an
abstract engine `String → Option (String → Bool)`: compiling a pattern
yields a key predicate, or `none` for an uncompilable pattern (which
the Go code silently skips).  All sanitizer theorems hold for every
engine. -/

/-- differ.StrippedField. -/
structure StrippedField where
  path : String
  reason : String
  deriving Repr, DecidableEq

/-- A compiled regex engine: pattern to key predicate, none on error. -/
def RegexEngine : Type := String → Option (String → Bool)

/-- Read an object field as a string-to-string map, failing when the
field is absent, not a map, or any value is not a string
(unstructured.NestedStringMap). -/
def asStringMap : Option J → Option (List (String × String))
  | some (.obj fs) =>
    fs.foldr
      (fun kv acc =>
        match kv.2, acc with
        | .str s, some r => some ((kv.1, s) :: r)
        | _, _ => none)
      (some [])
  | _ => none

/-- Write a string map back as an object field (SetNestedStringMap). -/
def stringMapToJ (m : List (String × String)) : J :=
  .obj (m.map (fun kv => (kv.1, J.str kv.2)))

/-- Sanitizer.stripMatchingAnnotations / stripMatchingLabels: read the
key/value map at `mapPath`, delete every key the compiled pattern
matches, write the map back, and record one StrippedField per rule that
fired (not per key).  No-ops when the map is absent, the pattern does
not compile, or nothing matches. -/
def stripMatchingKeys (engine : RegexEngine) (mapPath : List String) (rule : StripRule)
    (xr : J) : J × List StrippedField :=
  match asStringMap (getPath xr mapPath) with
  | none => (xr, [])
  | some entries =>
    match engine rule.pat with
    | none => (xr, [])
    | some matcher =>
      let strippedKeys := entries.filter (fun kv => matcher kv.1)
      if strippedKeys.isEmpty then (xr, [])
      else
        let remaining := entries.filter (fun kv => !matcher kv.1)
        (setPath xr mapPath (stringMapToJ remaining),
         [{ path := rule.path ++ " (pattern: " ++ rule.pat ++ ")", reason := rule.reason }])

/-- Sanitizer.shouldStrip: equals comparison only (pattern matching is
handled separately for annotations/labels). -/
def shouldStrip (value : J) (rule : StripRule) : Bool :=
  match rule.equals with
  | some e => J.beq value e
  | none => false

/-- Sanitizer.applyRule: pattern rules fire only on the two metadata
map paths; otherwise resolve the dotted path and strip on an equals
match. -/
def applyRule (engine : RegexEngine) (xr : J) (rule : StripRule) : J × List StrippedField :=
  if rule.pat ≠ "" ∧ rule.path = "metadata.annotations" then
    stripMatchingKeys engine ["metadata", "annotations"] rule xr
  else if rule.pat ≠ "" ∧ rule.path = "metadata.labels" then
    stripMatchingKeys engine ["metadata", "labels"] rule xr
  else
    match getPath xr (splitPath rule.path) with
    | none => (xr, [])
    | some value =>
      if shouldStrip value rule then
        (removePath xr (splitPath rule.path), [{ path := rule.path, reason := rule.reason }])
      else (xr, [])

/-- Sanitizer.Sanitize: deep copy (implicit in the pure embedding), then
apply each rule in order, accumulating the stripped-field records. -/
def Sanitize (engine : RegexEngine) (rules : List StripRule) (xr : J) :
    J × List StrippedField :=
  rules.foldl
    (fun acc rule =>
      let step := applyRule engine acc.1 rule
      (step.1, acc.2 ++ step.2))
    (xr, [])

/-! ## Preview transform (pkg/watcher/xr_watcher.go, handlePRBatch lines 385-395)

Deep copy, rename to the base name, clear the five server-assigned
identity fields.  The unstructured setters called with zero values
remove their fields (resourceVersion, generation, creationTimestamp,
managedFields), while SetName and SetUID write their values. -/

/-- The clone-rename-clear step of handlePRBatch. -/
def previewTransform (baseName : String) (xr : J) : J :=
  let x1 := setPath xr ["metadata", "name"] (J.str baseName)
  let x2 := setPath x1 ["metadata", "uid"] (J.str "")
  let x3 := removePath x2 ["metadata", "resourceVersion"]
  let x4 := removePath x3 ["metadata", "generation"]
  let x5 := removePath x4 ["metadata", "creationTimestamp"]
  removePath x5 ["metadata", "managedFields"]

/-! ## Deletion detection (pkg/watcher/xr_watcher.go and pkg/argocd/client.go) -/

/-- A Kubernetes group/version/kind triple. -/
structure GVK where
  group : String
  version : String
  kind : String
  deriving Repr, DecidableEq

/-- The slice of an XR that deletion detection reads. -/
structure XRinfo where
  gvk : GVK
  name : String
  deriving Repr, DecidableEq

/-- XRWatcher.detectDeletions (label-free fallback): for every listed
cluster resource, skip PR resources, skip GVKs absent from the PR set,
and emit a deletion for every remaining production resource whose name
is not a PR base name.  Returns the emitted (GVK, name) entries. -/
def detectDeletions (detectPR : XRinfo → Int) (getBaseName : XRinfo → String)
    (cluster : List XRinfo) (prResources : List XRinfo) : List (GVK × String) :=
  let prBaseNames := prResources.map getBaseName
  let prGVKs := prResources.map XRinfo.gvk
  if prResources.isEmpty then []
  else
    cluster.filterMap (fun prodXR =>
      if detectPR prodXR ≠ 0 then none
      else if prodXR.gvk ∉ prGVKs then none
      else if prodXR.name ∈ prBaseNames then none
      else some (prodXR.gvk, prodXR.name))

/-- argocd.ResourceInfo. -/
structure ResourceInfo where
  group : String
  version : String
  kind : String
  ns : String
  name : String
  deriving Repr, DecidableEq

/-- ResourceInfo.Key. -/
def ResourceInfo.key (r : ResourceInfo) : String :=
  r.group ++ "/" ++ r.version ++ "/" ++ r.kind ++ "/" ++ r.ns ++ "/" ++ r.name

/-- ResourceInfo.GVK. -/
def ResourceInfo.gvk (r : ResourceInfo) : GVK :=
  ⟨r.group, r.version, r.kind⟩

/-- The deletions bucket of argocd Client.compareResources: production
resources whose key has no counterpart among the PR application's
resources. -/
def compareDeletions (prRes prodRes : List ResourceInfo) : List ResourceInfo :=
  prodRes.filter (fun r => ¬ prRes.any (fun p => p.key = r.key))

/-- The deletion entries handlePRBatch adds to the result map in
GitOps-assisted mode: one "DELETED-name" entry per ArgoCD deletion,
with no GVK filtering against the PR's preview XRs. -/
def argoDeletionEntries (prRes prodRes : List ResourceInfo) : List (GVK × String) :=
  (compareDeletions prRes prodRes).map (fun d => (d.gvk, d.name))

/-! ## Comment upsert (pkg/vcs/github client) -/

/-- The marker that identifies this system's comment. -/
def CommentIdentifier : String := "<!-- crossplane-plan-comment -->"

/-- One issue comment as the GitHub API exposes it. -/
structure GHComment where
  id : Nat
  body : String
  deriving Repr, DecidableEq

/-- The comment state of one PR, plus the id the server assigns next. -/
structure GHPR where
  comments : List GHComment
  nextId : Nat
  deriving Repr, DecidableEq

/-- What PostComment did: created a new comment or edited an old one. -/
inductive UpsertAction where
  | created (id : Nat)
  | edited (id : Nat)
  deriving Repr, DecidableEq

/-- strings.HasPrefix of the marker, on the character lists. -/
def hasMarker (s : String) : Bool := CommentIdentifier.toList.isPrefixOf s.toList

/-- Client.findExistingComment: the id of the first comment whose body
starts with the marker. -/
def findExistingComment : List GHComment → Option Nat
  | [] => none
  | c :: rest =>
    if hasMarker c.body then some c.id else findExistingComment rest

/-- The GitHub edit-comment call: replace the body of the comment with
the given id. -/
def editComment (cs : List GHComment) (cid : Nat) (body : String) : List GHComment :=
  cs.map (fun c => if c.id = cid then { c with body := body } else c)

/-- Client.PostComment: prefix the marker, then edit the first marker
comment if one exists, else create a new comment. -/
def PostComment (st : GHPR) (body : String) : GHPR × UpsertAction :=
  let commentBody := CommentIdentifier ++ "\n\n" ++ body
  match findExistingComment st.comments with
  | some cid =>
    ({ st with comments := editComment st.comments cid commentBody }, .edited cid)
  | none =>
    ({ comments := st.comments ++ [⟨st.nextId, commentBody⟩], nextId := st.nextId + 1 },
     .created st.nextId)

/-! ## PR work queue (pkg/workqueue/pr_queue.go)

Discrete-time model.  The queue state is the pending table: one
(prNumber, deadline) entry per PR.  `Enqueue` at time t either creates
the entry or resets its timer; in both branches the timer is re-armed
to fire at t + D.  Events are consumed in time order; before an event
at time t is handled, every pending timer with deadline at or before t
has fired, removing its entry and invoking the processor once.  After
the last event all remaining timers fire. -/

/-- Enqueue at time deadline-D: reset the PR's timer or create the
entry (pr_queue.go Enqueue, both branches end with a fresh timer). -/
def setTimer (st : List (Nat × Nat)) (pr dl : Nat) : List (Nat × Nat) :=
  if st.any (fun e => e.1 = pr) then
    st.map (fun e => if e.1 = pr then (pr, dl) else e)
  else st ++ [(pr, dl)]

/-- Run the queue over time-ordered enqueue events (time, prNumber)
from a pending table; returns the sequence of processor invocations. -/
def runQueue (D : Nat) : List (Nat × Nat) → List (Nat × Nat) → List Nat
  | [], st => st.map Prod.fst
  | (t, pr) :: es, st =>
    let fired := st.filter (fun e => e.2 ≤ t)
    let rem := st.filter (fun e => t < e.2)
    fired.map Prod.fst ++ runQueue D es (setTimer rem pr (t + D))

/-- Single-PR projection of the queue: events carry only the time and
whether they enqueue the tracked PR; the state is that PR's pending
deadline. -/
def runPrQueue (D : Nat) : List (Nat × Bool) → Option Nat → Nat
  | [], some _ => 1
  | [], none => 0
  | (t, isPr) :: es, st =>
    let fired := match st with | some d => decide (d ≤ t) | none => false
    let st1 := if fired then none else st
    let st2 := if isPr then some (t + D) else st1
    (if fired then 1 else 0) + runPrQueue D es st2

/-- The enqueue times of one PR within an event list. -/
def prTimes (es : List (Nat × Nat)) (pr : Nat) : List Nat :=
  (es.filter (fun e => e.2 = pr)).map Prod.fst

/-- Capture lists whose entries are nonempty all-digit strings. -/
def DigitCaps (caps : List String) : Prop :=
  ∀ m ∈ caps, m.toList ≠ [] ∧ ∀ c ∈ m.toList, c.isDigit = true

/-- The pending deadline the work queue holds for one PR. -/
def prEntry (st : List (Nat × Nat)) (pr : Nat) : Option Nat :=
  (st.find? (fun e => e.1 = pr)).map Prod.snd

/-- The event list as seen by one PR: each event's time, and whether it
is an enqueue of that PR. -/
def toPrEvents (es : List (Nat × Nat)) (pr : Nat) : List (Nat × Bool) :=
  es.map (fun e => (e.1, e.2 == pr))

/-- The tracked PR's enqueue times in a projected event list. -/
def trueTimes (es : List (Nat × Bool)) : List Nat :=
  (es.filter (fun e => e.2)).map Prod.fst

/-! # Theorems -/

/-! ## Claim C1 — name-pattern detection -/

/-- Claim C1: evaluation of the name-pattern detector built from
"pr-\x7bnumber\x7d-*" at the claim's two scenarios.  DetectPR behaves as
claimed (123 for "pr-123-mill", 0 for "mill"), but GetBaseName on
"pr-123-mill" returns the unmodified name "pr-123-mill", not the base
name "mill" that the claim, the function's own doc comment and its
internal capture-group comment state: NewNameDetector rewrites "*" to a
dot-star without a capture group, so the second capture group
GetBaseName looks for never exists. -/
theorem c1_name_detector_eval :
    nameDetectPR (NewNameDetector "pr-{number}-*") ⟨"pr-123-mill", [], []⟩ = 123 ∧
    nameGetBaseName (NewNameDetector "pr-{number}-*") ⟨"pr-123-mill", [], []⟩ = "pr-123-mill" ∧
    nameGetBaseName (NewNameDetector "pr-{number}-*") ⟨"pr-123-mill", [], []⟩ ≠ "mill" ∧
    nameDetectPR (NewNameDetector "pr-{number}-*") ⟨"mill", [], []⟩ = 0 ∧
    nameGetBaseName (NewNameDetector "pr-{number}-*") ⟨"mill", [], []⟩ = "mill" := by
  refine ⟨rfl, rfl, by decide, rfl, rfl⟩

/-! ## Claim C2 — default strip rules -/

/-- Claim C2: the baked-in DefaultStripRules list contains exactly two
rules (the managementPolicies equals rule and the ArgoCD annotations
pattern rule) and no rule at all for metadata.labels, contradicting the
claimed three-rule list, the repository's own TestDefaultStripRules
(which requires a metadata.labels rule) and the README's default
exclusion table. -/
theorem c2_default_strip_rules_eval :
    DefaultStripRules.length = 2 ∧
    DefaultStripRules.map StripRule.path = ["spec.managementPolicies", "metadata.annotations"] ∧
    ∀ r ∈ DefaultStripRules, r.path ≠ "metadata.labels" := by
  refine ⟨rfl, rfl, by decide⟩

/-! ## Claim C9 — github-repo flag requirement -/

/-- Claim C9 (counterexample): with dry-run set and github-repo absent,
main's validation phase still exits with code 1, contrary to the
claim that the flag is required only for non-dry-run operation. -/
theorem c9_dry_run_still_requires_repo :
    validateStartup ⟨"", true, "", "", "", "", ""⟩ = some 1 := rfl

/-- Claim C9 (amended): the github-repo flag is required
unconditionally — validation exits with code 1 exactly when the flag is
empty or when dry-run is off and none of the three authentication modes
is configured; the dry-run exemption applies only to authentication. -/
theorem c9_repo_required_unconditionally (f : StartupFlags) :
    validateStartup f = some 1 ↔
      f.githubRepo = "" ∨
        (¬f.dryRun ∧ f.githubToken = "" ∧ f.githubCredentials = "" ∧
          ¬(f.githubAppID ≠ "" ∧ f.githubInstallID ≠ "" ∧ f.githubAppKeyPath ≠ "")) := by
  unfold validateStartup
  by_cases h1 : f.githubRepo = ""
  · simp [h1]
  · simp only [h1, if_false]
    by_cases h2 : f.dryRun <;> simp [h1, h2]

/-! ## Claim C10 — LoadConfig error behavior -/

/-- Claim C10: LoadConfig returns the built-in defaults without error
when the path is empty or the file does not exist, and returns an error
only when the file exists but cannot be read or fails to parse as YAML;
a missing config file at the default path is therefore not a fatal
startup error. -/
theorem c10_load_config (fs : String → ReadResult)
    (parse : String → Option (Config → Config)) (path : String) :
    LoadConfig fs parse "" = .ok DefaultConfig ∧
    (fs path = .notExist → LoadConfig fs parse path = .ok DefaultConfig) ∧
    ∀ msg, LoadConfig fs parse path = .error msg →
      fs path = .ioError ∨ ∃ data, fs path = .okData data ∧ parse data = none := by
  refine ⟨rfl, ?_, ?_⟩
  · intro h
    unfold LoadConfig
    by_cases hp : path = "" <;> simp [hp, h]
  · intro msg h
    unfold LoadConfig at h
    by_cases hp : path = ""
    · simp [hp] at h
    · simp only [hp, if_false] at h
      cases hfs : fs path with
      | notExist => simp [hfs] at h
      | ioError => exact Or.inl rfl
      | okData data =>
        simp only [hfs] at h
        cases hparse : parse data with
        | none => exact Or.inr ⟨data, rfl, hparse⟩
        | some upd => simp [hparse] at h

/-- Claim C10 (witness): a missing file at the default config path
yields the default configuration without error. -/
theorem c10_load_config_witness :
    LoadConfig (fun _ => .notExist) (fun _ => none) "/etc/crossplane-plan/config.yaml" =
      .ok DefaultConfig :=
  (c10_load_config (fun _ => .notExist) (fun _ => none)
    "/etc/crossplane-plan/config.yaml").2.1 rfl

/-! ## Claim C3 — deletion detection and the PR GVK set -/

/-- Claim C3 (amended, label-free fallback): every deletion entry the
fallback detector emits has the GVK of some preview XR in the PR batch,
because detectDeletions skips any cluster resource whose GVK is absent
from the PR set. -/
theorem c3_fallback_deletion_gvk_has_preview (detectPR : XRinfo → Int)
    (getBaseName : XRinfo → String) (cluster prResources : List XRinfo) (g : GVK) (n : String)
    (h : (g, n) ∈ detectDeletions detectPR getBaseName cluster prResources) :
    ∃ xr ∈ prResources, xr.gvk = g := by
  unfold detectDeletions at h
  cases hE : prResources.isEmpty with
  | true => rw [hE] at h; simp at h
  | false =>
    rw [hE] at h
    simp only [Bool.false_eq_true, if_false, List.mem_filterMap] at h
    obtain ⟨prodXR, hmem, hsome⟩ := h
    split at hsome
    · exact absurd hsome (by simp)
    · split at hsome
      · exact absurd hsome (by simp)
      · split at hsome
        · exact absurd hsome (by simp)
        · rename_i hpr hgvk hname
          have hfst : prodXR.gvk = g := congrArg Prod.fst (Option.some.inj hsome)
          obtain ⟨xr, hxr, hg⟩ := List.mem_map.mp (not_not.mp hgvk)
          exact ⟨xr, hxr, hg.trans hfst⟩

/-! ## Claim C5 — comment upsert idempotence -/

/-- Helper: a list is a boolean prefix of itself followed by anything. -/
theorem isPrefixOf_self_append : ∀ (l₁ l₂ : List Char), l₁.isPrefixOf (l₁ ++ l₂) = true
  | [], _ => by simp [List.isPrefixOf]
  | a :: as, l₂ => by simp [List.isPrefixOf, isPrefixOf_self_append as l₂]

/-- Helper: the composed body always carries the marker prefix. -/
theorem hasMarker_compose (s : String) : hasMarker (CommentIdentifier ++ s) = true := by
  unfold hasMarker
  have : (CommentIdentifier ++ s).toList = CommentIdentifier.toList ++ s.toList := by
    simp [String.toList, String.data_append]
  rw [this]
  exact isPrefixOf_self_append _ _

/-- Helper: no marker comment means the search finds nothing. -/
theorem findExistingComment_eq_none (cs : List GHComment)
    (h : ∀ c ∈ cs, hasMarker c.body = false) : findExistingComment cs = none := by
  induction cs with
  | nil => rfl
  | cons c rest ih =>
    have hc := h c (List.mem_cons_self c rest)
    simp only [findExistingComment, hc, Bool.false_eq_true, if_false]
    exact ih (fun d hd => h d (List.mem_cons_of_mem c hd))

/-- Helper: searching past marker-free comments reaches the tail. -/
theorem findExistingComment_append (cs cs' : List GHComment)
    (h : ∀ c ∈ cs, hasMarker c.body = false) :
    findExistingComment (cs ++ cs') = findExistingComment cs' := by
  induction cs with
  | nil => rfl
  | cons c rest ih =>
    have hc := h c (List.mem_cons_self c rest)
    simp only [List.cons_append, findExistingComment, hc, Bool.false_eq_true, if_false]
    exact ih (fun d hd => h d (List.mem_cons_of_mem c hd))

/-- Helper: editing an id that no comment has changes nothing. -/
theorem editComment_no_such_id : ∀ (cs : List GHComment) (cid : Nat) (body : String),
    (∀ c ∈ cs, c.id ≠ cid) → editComment cs cid body = cs
  | [], _, _, _ => rfl
  | c :: rest, cid, body, h => by
    have htail := editComment_no_such_id rest cid body
      (fun d hd => h d (List.mem_cons_of_mem c hd))
    simp only [editComment, List.map_cons, if_neg (h c (List.mem_cons_self c rest))]
    simpa [editComment] using htail

/-- Claim C5: starting from a PR whose comments carry no marker (and
whose server-assigned next id is fresh), two sequential PostComment
calls with the same body leave exactly one marker comment, whose body
is the marker, a blank line, then the body; the first call creates it
and the second edits the same comment id, so no duplicate is created. -/
theorem c5_upsert_idempotent (st : GHPR) (b : String)
    (hm : ∀ c ∈ st.comments, hasMarker c.body = false)
    (hid : ∀ c ∈ st.comments, c.id ≠ st.nextId) :
    (PostComment st b).2 = .created st.nextId ∧
    (PostComment (PostComment st b).1 b).2 = .edited st.nextId ∧
    (PostComment (PostComment st b).1 b).1.comments.filter (fun c => hasMarker c.body) =
      [⟨st.nextId, CommentIdentifier ++ "\n\n" ++ b⟩] ∧
    (PostComment (PostComment st b).1 b).1.comments.length = st.comments.length + 1 := by
  have hfind1 : findExistingComment st.comments = none := findExistingComment_eq_none _ hm
  have hbody : hasMarker (CommentIdentifier ++ "\n\n" ++ b) = true := by
    have := hasMarker_compose ("\n\n" ++ b)
    rwa [← String.append_assoc] at this
  have hstep1 :
      PostComment st b =
        ({ comments := st.comments ++ [⟨st.nextId, CommentIdentifier ++ "\n\n" ++ b⟩],
           nextId := st.nextId + 1 }, .created st.nextId) := by
    simp only [PostComment, hfind1]
  have hfind2 :
      findExistingComment
        (st.comments ++ [⟨st.nextId, CommentIdentifier ++ "\n\n" ++ b⟩]) = some st.nextId := by
    rw [findExistingComment_append _ _ hm]
    simp [findExistingComment, hbody]
  have hedit :
      editComment (st.comments ++ [⟨st.nextId, CommentIdentifier ++ "\n\n" ++ b⟩]) st.nextId
          (CommentIdentifier ++ "\n\n" ++ b) =
        st.comments ++ [⟨st.nextId, CommentIdentifier ++ "\n\n" ++ b⟩] := by
    unfold editComment
    rw [List.map_append]
    congr 1
    · exact editComment_no_such_id st.comments st.nextId (CommentIdentifier ++ "\n\n" ++ b) hid
    · simp
  refine ⟨by rw [hstep1], ?_, ?_, ?_⟩
  · rw [hstep1]
    simp only [PostComment, hfind2]
  · rw [hstep1]
    simp only [PostComment, hfind2, hedit]
    rw [List.filter_append]
    have : st.comments.filter (fun c => hasMarker c.body) = [] := by
      apply List.filter_eq_nil_iff.mpr
      intro c hc
      simp [hm c hc]
    rw [this]
    simp [hbody]
  · rw [hstep1]
    simp only [PostComment, hfind2, hedit]
    simp

/-- Claim C3 (witness): the fallback scenario of spec S7 — PR 42 holds
one XDatabase preview; the detector emits the deletion of XDatabase/b
and that entry's GVK indeed has a preview XR in the PR. -/
theorem c3_fallback_witness :
    ∃ xr ∈ ([⟨⟨"example.org", "v1", "XDatabase"⟩, "pr-42-a"⟩] : List XRinfo),
      xr.gvk = ⟨"example.org", "v1", "XDatabase"⟩ :=
  c3_fallback_deletion_gvk_has_preview
    (fun x => if x.name = "pr-42-a" then 42 else 0)
    (fun x => if x.name = "pr-42-a" then "a" else x.name)
    [⟨⟨"example.org", "v1", "XDatabase"⟩, "a"⟩,
     ⟨⟨"example.org", "v1", "XDatabase"⟩, "b"⟩,
     ⟨⟨"example.org", "v1", "XDatabase"⟩, "pr-42-a"⟩]
    [⟨⟨"example.org", "v1", "XDatabase"⟩, "pr-42-a"⟩]
    ⟨"example.org", "v1", "XDatabase"⟩ "b" (by decide)

/-- Claim C3 (counterexample for the GitOps-assisted mode): the ArgoCD
application diff lists an XBucket deletion although the PR's only
preview XR is an XDatabase; handlePRBatch adds that entry to the result
map with no GVK filtering, so a DeletionEntry is emitted for a GVK that
has zero preview XRs in the PR. -/
theorem c3_argocd_deletion_without_preview_gvk :
    ((⟨"example.org", "v1", "XBucket"⟩ : GVK), "b") ∈
        argoDeletionEntries
          [⟨"example.org", "v1", "XDatabase", "ns", "a"⟩]
          [⟨"example.org", "v1", "XDatabase", "ns", "a"⟩,
           ⟨"example.org", "v1", "XBucket", "ns", "b"⟩] ∧
      ∀ xr ∈ ([⟨⟨"example.org", "v1", "XDatabase"⟩, "pr-7-a"⟩] : List XRinfo),
        xr.gvk ≠ ⟨"example.org", "v1", "XBucket"⟩ := by
  decide

/-- Claim C5 (witness): on a PR with no comments and next id 1, two
PostComment calls with body "body-A" leave exactly one marker comment
with the composed body. -/
theorem c5_upsert_idempotent_witness :
    (PostComment (PostComment ⟨[], 1⟩ "body-A").1 "body-A").1.comments.filter
        (fun c => hasMarker c.body) =
      [⟨1, CommentIdentifier ++ "\n\n" ++ "body-A"⟩] :=
  (c5_upsert_idempotent ⟨[], 1⟩ "body-A"
    (fun c hc => absurd hc (List.not_mem_nil c))
    (fun c hc => absurd hc (List.not_mem_nil c))).2.2.1

/-! ## Claim C6 — totality and sign of DetectPR -/

/-- Claim C6 (counterexample): a label value that parses to a negative
integer is returned as-is by the label detector (strconv.Atoi accepts a
leading minus sign), so DetectPR returns -7, not the claimed 0, and its
non-zero return value is not positive. -/
theorem c6_negative_label_value :
    labelDetectPR defaultLabelKey ⟨"mill", [("millstone.tech/pr-number", "-7")], []⟩ = -7 ∧
    annotDetectPR defaultAnnotKey ⟨"mill", [], [("millstone.tech/preview-pr", "-7")]⟩ = -7 ∧
    labelDetectPR defaultLabelKey ⟨"mill", [("millstone.tech/pr-number", "0")], []⟩ = 0 := by
  refine ⟨by decide, by decide, by decide⟩

/-- Helper: every character a capture takes comes from the all-digit
prefix computed by takeWhile. -/
theorem take_isDigit_of_le_takeWhile :
    ∀ (s : List Char) (k : Nat), k ≤ (s.takeWhile (·.isDigit)).length →
      ∀ c ∈ s.take k, c.isDigit = true := by
  intro s
  induction s with
  | nil => intro k _ c hc; simp at hc
  | cons a rest ih =>
    intro k hk c hc
    cases k with
    | zero => simp at hc
    | succ k' =>
      by_cases ha : a.isDigit = true
      · simp only [List.takeWhile_cons, ha, if_true, List.length_cons] at hk
        simp only [List.take_succ_cons, List.mem_cons] at hc
        rcases hc with hc | hc
        · rwa [hc]
        · exact ih k' (Nat.le_of_succ_le_succ hk) c hc
      · simp only [List.takeWhile_cons] at hk
        rw [if_neg ha] at hk
        simp at hk

/-- Helper: tryNum only prepends nonempty all-digit captures. -/
theorem tryNum_digitCaps (f : List Char → Option (List String)) (s : List Char)
    (hf : ∀ t caps, f t = some caps → DigitCaps caps) :
    ∀ k, k ≤ (s.takeWhile (·.isDigit)).length →
      ∀ caps, tryNum f s k = some caps → DigitCaps caps := by
  intro k
  induction k with
  | zero => intro _ caps h; simp [tryNum] at h
  | succ k' ih =>
    intro hk caps h
    unfold tryNum at h
    cases hfk : f (s.drop (k' + 1)) with
    | some caps' =>
      rw [hfk] at h
      have hcaps : caps = (s.take (k' + 1)).asString :: caps' := (Option.some.inj h).symm
      subst hcaps
      intro m hm
      rcases List.mem_cons.mp hm with hm | hm
      · subst hm
        have hlen : k' + 1 ≤ s.length :=
          le_trans hk (List.takeWhile_prefix _).length_le
        constructor
        · have : (s.take (k' + 1)).length = k' + 1 := by
            rw [List.length_take]
            omega
          intro hnil
          rw [show ((s.take (k' + 1)).asString).toList = s.take (k' + 1) from rfl] at hnil
          rw [hnil] at this
          simp at this
        · intro c hc
          rw [show ((s.take (k' + 1)).asString).toList = s.take (k' + 1) from rfl] at hc
          exact take_isDigit_of_le_takeWhile s (k' + 1) hk c hc
      · exact hf _ caps' hfk m hm
    | none =>
      rw [hfk] at h
      exact ih (le_trans (Nat.le_succ k') hk) caps h

/-- Helper: tryStar never creates captures of its own. -/
theorem tryStar_digitCaps (f : List Char → Option (List String)) (s : List Char)
    (hf : ∀ t caps, f t = some caps → DigitCaps caps) :
    ∀ k caps, tryStar f s k = some caps → DigitCaps caps := by
  intro k
  induction k with
  | zero => intro caps h; exact hf _ caps h
  | succ k' ih =>
    intro caps h
    unfold tryStar at h
    cases hfk : f (s.drop (k' + 1)) with
    | some caps' =>
      rw [hfk] at h
      exact (Option.some.inj h) ▸ hf _ caps' hfk
    | none =>
      rw [hfk] at h
      exact ih caps h

/-- Helper: every capture group the token matcher produces is a
nonempty all-digit string (only the digit-capture token captures). -/
theorem matchToks_digitCaps :
    ∀ (ts : List Tok) (s : List Char) (caps : List String),
      matchToks ts s = some caps → DigitCaps caps := by
  intro ts
  induction ts with
  | nil =>
    intro s caps h
    unfold matchToks at h
    by_cases he : s.isEmpty <;> simp [he] at h
    subst h
    intro m hm
    simp at hm
  | cons t ts ih =>
    intro s caps h
    cases t with
    | lit c =>
      unfold matchToks at h
      cases s with
      | nil => simp at h
      | cons d s' =>
        have h' : (if d = c then matchToks ts s' else none) = some caps := h
        by_cases hd : d = c
        · rw [if_pos hd] at h'
          exact ih s' caps h'
        · rw [if_neg hd] at h'
          simp at h'
    | num =>
      unfold matchToks at h
      exact tryNum_digitCaps _ s (fun t caps h => ih t caps h) _ (le_refl _) caps h
    | star =>
      unfold matchToks at h
      exact tryStar_digitCaps _ s (fun t caps h => ih t caps h) _ caps h

/-- Helper: Atoi of a nonempty all-digit string is nonnegative when it
succeeds (no sign character is possible). -/
theorem atoi_nonneg_of_digits (s : String) (h1 : s.toList ≠ [])
    (h2 : ∀ c ∈ s.toList, c.isDigit = true) :
    ∀ n, atoi s = some n → 0 ≤ n := by
  intro n h
  unfold atoi at h
  cases hs : s.toList with
  | nil => exact absurd hs h1
  | cons c rest =>
    rw [hs] at h
    have hc : c.isDigit = true := h2 c (hs ▸ List.mem_cons_self c rest)
    have hcm : ¬ c = '-' := by
      intro hcm; rw [hcm] at hc; simp at hc
    have hcp : ¬ c = '+' := by
      intro hcp; rw [hcp] at hc; simp at hc
    simp only [hcm, hcp, if_false] at h
    by_cases hne : (c :: rest).isEmpty
    · simp at hne
    · simp only [hne, Bool.false_eq_true, if_false] at h
      by_cases hall : (c :: rest).all (·.isDigit)
      · simp only [hall, if_true] at h
        by_cases hrange :
            (1 : Int) * (digitsVal (c :: rest) : Int) < -(2 ^ 63) ∨
              (1 : Int) * (digitsVal (c :: rest) : Int) > 2 ^ 63 - 1
        · simp only [hrange, if_true] at h
          simp at h
        · simp only [hrange, if_false] at h
          have := Option.some.inj h
          rw [← this]
          positivity
      · simp only [hall, Bool.false_eq_true, if_false] at h
        simp at h

/-- Helper: the name detector never returns a negative PR number (its
single capture group only ever matches digits). -/
theorem nameDetectPR_nonneg (nd : NameDetector) (xr : UXR) :
    0 ≤ nameDetectPR nd xr := by
  unfold nameDetectPR findStringSubmatch
  cases hmt : matchToks nd.toks xr.name.toList with
  | none => simp
  | some caps =>
    simp only []
    split
    · simp
    · cases hget : (xr.name :: caps).get? 1 with
      | none => simp [hget]
      | some m =>
        have hmem : m ∈ caps := by
          have h0 : caps[0]? = some m := by
            have := hget
            simpa [List.get?_eq_getElem?] using this
          exact List.getElem?_mem h0
        have hdig := matchToks_digitCaps nd.toks xr.name.toList caps hmt m hmem
        have hred :
            (match some m with
              | none => (0 : Int)
              | some m =>
                match atoi m with
                | none => 0
                | some prNumber => prNumber) =
              (match atoi m with
                | none => (0 : Int)
                | some prNumber => prNumber) := rfl
        rw [hred]
        cases hat : atoi m with
        | none => simp
        | some n =>
          exact atoi_nonneg_of_digits m hdig.1 hdig.2 n hat

/-- Claim C6 (amended): every detector's DetectPR is a total pure
function of the XR; the label and annotation detectors return 0 when
the key is absent or the value fails Atoi (non-integer or out of 64-bit
range) and otherwise return the parsed integer as-is — including
negative integers, so non-zero returns need not be positive; only the
name detector is guaranteed nonnegative, its capture group being
all-digit. -/
theorem c6_detectpr_totality (key : String) (xr : UXR) (nd : NameDetector) :
    (lookupStr xr.labels key = none → labelDetectPR key xr = 0) ∧
    (∀ v, lookupStr xr.labels key = some v → atoi v = none → labelDetectPR key xr = 0) ∧
    (∀ v n, lookupStr xr.labels key = some v → atoi v = some n → labelDetectPR key xr = n) ∧
    (lookupStr xr.annots key = none → annotDetectPR key xr = 0) ∧
    (∀ v, lookupStr xr.annots key = some v → atoi v = none → annotDetectPR key xr = 0) ∧
    (∀ v n, lookupStr xr.annots key = some v → atoi v = some n → annotDetectPR key xr = n) ∧
    0 ≤ nameDetectPR nd xr := by
  refine ⟨?_, ?_, ?_, ?_, ?_, ?_, nameDetectPR_nonneg nd xr⟩
  · intro h; simp [labelDetectPR, h]
  · intro v hv ha; simp [labelDetectPR, hv, ha]
  · intro v n hv ha; simp [labelDetectPR, hv, ha]
  · intro h; simp [annotDetectPR, h]
  · intro v hv ha; simp [annotDetectPR, hv, ha]
  · intro v n hv ha; simp [annotDetectPR, hv, ha]

/-- Claim C6 (witness): a valid label parses to its value and the name
detector is nonnegative on a concrete non-matching name. -/
theorem c6_detectpr_totality_witness :
    labelDetectPR defaultLabelKey ⟨"mill", [("millstone.tech/pr-number", "123")], []⟩ = 123 ∧
    0 ≤ nameDetectPR (NewNameDetector "pr-{number}-*") ⟨"mill", [], []⟩ :=
  ⟨(c6_detectpr_totality defaultLabelKey
      ⟨"mill", [("millstone.tech/pr-number", "123")], []⟩
      (NewNameDetector "pr-{number}-*")).2.2.1 "123" 123 (by decide) (by decide),
   (c6_detectpr_totality defaultLabelKey
      ⟨"mill", [("millstone.tech/pr-number", "123")], []⟩
      (NewNameDetector "pr-{number}-*")).2.2.2.2.2.2⟩

/-! ## Claim C8 — preview transform frame property -/

/-- Helper: updating a key rewrites exactly the value stored there. -/
theorem lookupField_updateField_self :
    ∀ (fs : List (String × J)) (k : String) (f : J → J),
      lookupField (updateField fs k f) k = (lookupField fs k).map f
  | [], _, _ => rfl
  | (k1, v1) :: rest, k, f => by
    by_cases hk : k1 = k
    · subst hk; simp [updateField, lookupField]
    · simp only [updateField, List.map_cons, lookupField, if_neg hk]
      exact lookupField_updateField_self rest k f

/-- Helper: updating a key leaves every other key's lookup unchanged. -/
theorem lookupField_updateField_ne :
    ∀ (fs : List (String × J)) (k k' : String) (f : J → J), k' ≠ k →
      lookupField (updateField fs k f) k' = lookupField fs k'
  | [], _, _, _, _ => rfl
  | (k1, v1) :: rest, k, k', f, h => by
    by_cases hk1 : k1 = k'
    · subst hk1
      have hne : ¬ k1 = k := fun he => h (he ▸ rfl)
      simp [updateField, lookupField, hne]
    · simp only [updateField, List.map_cons, lookupField, if_neg hk1]
      exact lookupField_updateField_ne rest k k' f h

/-- Helper: a removed key no longer resolves. -/
theorem lookupField_removeKey_self :
    ∀ (fs : List (String × J)) (k : String), lookupField (removeKey fs k) k = none
  | [], _ => rfl
  | (k1, v1) :: rest, k => by
    by_cases hk : k1 = k
    · simp only [removeKey, if_pos hk]
      exact lookupField_removeKey_self rest k
    · simp only [removeKey, if_neg hk, lookupField, if_neg hk]
      exact lookupField_removeKey_self rest k

/-- Helper: removing a key leaves every other key's lookup unchanged. -/
theorem lookupField_removeKey_ne :
    ∀ (fs : List (String × J)) (k k' : String), k' ≠ k →
      lookupField (removeKey fs k) k' = lookupField fs k'
  | [], _, _, _ => rfl
  | (k1, v1) :: rest, k, k', h => by
    by_cases hk : k1 = k
    · have hne : ¬ k1 = k' := fun he => h (he ▸ hk ▸ rfl)
      simp only [removeKey, if_pos hk, lookupField, if_neg hne]
      exact lookupField_removeKey_ne rest k k' h
    · by_cases hk' : k1 = k'
      · subst hk'
        simp [removeKey, lookupField, h]
      · simp only [removeKey, if_neg hk, lookupField, if_neg hk']
        exact lookupField_removeKey_ne rest k k' h

/-- Helper: an upserted key resolves to the new value. -/
theorem lookupField_upsertField_self :
    ∀ (fs : List (String × J)) (k : String) (v : J),
      lookupField (upsertField fs k v) k = some v
  | [], _, _ => by simp [upsertField, lookupField]
  | (k1, v1) :: rest, k, v => by
    by_cases hk : k1 = k
    · simp [upsertField, lookupField, hk]
    · simp only [upsertField, if_neg hk, lookupField, if_neg hk]
      exact lookupField_upsertField_self rest k v

/-- Helper: upserting a key leaves every other key's lookup unchanged. -/
theorem lookupField_upsertField_ne :
    ∀ (fs : List (String × J)) (k k' : String) (v : J), k' ≠ k →
      lookupField (upsertField fs k v) k' = lookupField fs k'
  | [], k, k', v, h => by
    have hne : ¬ k = k' := fun he => h he.symm
    simp [upsertField, lookupField, hne]
  | (k1, v1) :: rest, k, k', v, h => by
    by_cases hk : k1 = k
    · have hne : ¬ k = k' := fun he => h he.symm
      have hne1 : ¬ k1 = k' := fun he => h (he ▸ hk ▸ rfl)
      simp [upsertField, lookupField, hk, hne, hne1]
    · by_cases hk' : k1 = k'
      · subst hk'
        simp [upsertField, lookupField, h]
      · simp only [upsertField, if_neg hk, lookupField, if_neg hk']
        exact lookupField_upsertField_ne rest k k' v h

/-- Helper: consecutive updates of the same key compose. -/
theorem updateField_updateField (fs : List (String × J)) (k : String) (f g : J → J) :
    updateField (updateField fs k f) k g = updateField fs k (fun v => g (f v)) := by
  unfold updateField
  rw [List.map_map]
  apply List.map_congr_left
  intro kv _
  by_cases hk : kv.1 = k <;> simp [hk]

/-- Helper: a two-segment set on a root object whose head key holds an
object rewrites that object in place. -/
theorem setPath_two (fs : List (String × J)) (a b : String) (v : J) (m : List (String × J))
    (h : lookupField fs a = some (J.obj m)) :
    setPath (J.obj fs) [a, b] v = J.obj (updateField fs a (fun w => setPath w [b] v)) := by
  simp [setPath, h]

/-- Helper: a two-segment remove on a root object whose head key holds
an object rewrites that object in place. -/
theorem removePath_two (fs : List (String × J)) (a b : String) (m : List (String × J))
    (h : lookupField fs a = some (J.obj m)) :
    removePath (J.obj fs) [a, b] = J.obj (updateField fs a (fun w => removePath w [b])) := by
  simp [removePath, h]

/-- Helper: the preview transform on a root object with an object
metadata field rewrites exactly the metadata object, composing the six
clears. -/
theorem previewTransform_normal_form (fs mfs : List (String × J)) (baseName : String)
    (hm : lookupField fs "metadata" = some (J.obj mfs)) :
    previewTransform baseName (J.obj fs) =
      J.obj (updateField fs "metadata" (fun w =>
        removePath (removePath (removePath (removePath
          (setPath (setPath w ["name"] (J.str baseName)) ["uid"] (J.str ""))
          ["resourceVersion"]) ["generation"]) ["creationTimestamp"]) ["managedFields"])) := by
  unfold previewTransform
  dsimp only
  rw [setPath_two fs "metadata" "name" _ mfs hm]
  have h1 : lookupField (updateField fs "metadata" (fun w => setPath w ["name"] (J.str baseName)))
      "metadata" = some (J.obj (upsertField mfs "name" (J.str baseName))) := by
    rw [lookupField_updateField_self, hm]; rfl
  rw [setPath_two _ "metadata" "uid" _ _ h1, updateField_updateField]
  have h2 : lookupField (updateField fs "metadata" (fun w =>
      setPath (setPath w ["name"] (J.str baseName)) ["uid"] (J.str ""))) "metadata" =
      some (J.obj (upsertField (upsertField mfs "name" (J.str baseName)) "uid" (J.str ""))) := by
    rw [lookupField_updateField_self, hm]; rfl
  rw [removePath_two _ "metadata" "resourceVersion" _ h2, updateField_updateField]
  have h3 : lookupField (updateField fs "metadata" (fun w =>
      removePath (setPath (setPath w ["name"] (J.str baseName)) ["uid"] (J.str ""))
        ["resourceVersion"])) "metadata" =
      some (J.obj (removeKey
        (upsertField (upsertField mfs "name" (J.str baseName)) "uid" (J.str ""))
        "resourceVersion")) := by
    rw [lookupField_updateField_self, hm]; rfl
  rw [removePath_two _ "metadata" "generation" _ h3, updateField_updateField]
  have h4 : lookupField (updateField fs "metadata" (fun w =>
      removePath (removePath (setPath (setPath w ["name"] (J.str baseName)) ["uid"] (J.str ""))
        ["resourceVersion"]) ["generation"])) "metadata" =
      some (J.obj (removeKey (removeKey
        (upsertField (upsertField mfs "name" (J.str baseName)) "uid" (J.str ""))
        "resourceVersion") "generation")) := by
    rw [lookupField_updateField_self, hm]; rfl
  rw [removePath_two _ "metadata" "creationTimestamp" _ h4, updateField_updateField]
  have h5 : lookupField (updateField fs "metadata" (fun w =>
      removePath (removePath (removePath
        (setPath (setPath w ["name"] (J.str baseName)) ["uid"] (J.str ""))
        ["resourceVersion"]) ["generation"]) ["creationTimestamp"])) "metadata" =
      some (J.obj (removeKey (removeKey (removeKey
        (upsertField (upsertField mfs "name" (J.str baseName)) "uid" (J.str ""))
        "resourceVersion") "generation") "creationTimestamp")) := by
    rw [lookupField_updateField_self, hm]; rfl
  rw [removePath_two _ "metadata" "managedFields" _ h5, updateField_updateField]

/-- Claim C8: on a preview XR (a root object whose metadata is an
object), the preview transform sets metadata.name to the base name,
sets metadata.uid to the empty string, removes resourceVersion,
generation, creationTimestamp and managedFields, and preserves every
other field: all root fields other than metadata, and all metadata
fields other than those six, resolve exactly as in the input.  The
embedding is a pure function, so the input XR itself is unchanged. -/
theorem c8_preview_transform_frame (fs mfs : List (String × J)) (baseName : String)
    (hm : lookupField fs "metadata" = some (J.obj mfs)) :
    getPath (previewTransform baseName (J.obj fs)) ["metadata", "name"] =
        some (J.str baseName) ∧
    getPath (previewTransform baseName (J.obj fs)) ["metadata", "uid"] = some (J.str "") ∧
    getPath (previewTransform baseName (J.obj fs)) ["metadata", "resourceVersion"] = none ∧
    getPath (previewTransform baseName (J.obj fs)) ["metadata", "generation"] = none ∧
    getPath (previewTransform baseName (J.obj fs)) ["metadata", "creationTimestamp"] = none ∧
    getPath (previewTransform baseName (J.obj fs)) ["metadata", "managedFields"] = none ∧
    (∀ q rest, q ≠ "metadata" →
      getPath (previewTransform baseName (J.obj fs)) (q :: rest) =
        getPath (J.obj fs) (q :: rest)) ∧
    (∀ k rest,
      k ∉ (["name", "uid", "resourceVersion", "generation",
            "creationTimestamp", "managedFields"] : List String) →
      getPath (previewTransform baseName (J.obj fs)) ("metadata" :: k :: rest) =
        getPath (J.obj fs) ("metadata" :: k :: rest)) := by
  have key := previewTransform_normal_form fs mfs baseName hm
  have hlook : lookupField (updateField fs "metadata" (fun w =>
      removePath (removePath (removePath (removePath
        (setPath (setPath w ["name"] (J.str baseName)) ["uid"] (J.str ""))
        ["resourceVersion"]) ["generation"]) ["creationTimestamp"]) ["managedFields"]))
      "metadata" =
      some (J.obj (removeKey (removeKey (removeKey (removeKey
        (upsertField (upsertField mfs "name" (J.str baseName)) "uid" (J.str ""))
        "resourceVersion") "generation") "creationTimestamp") "managedFields")) := by
    rw [lookupField_updateField_self, hm]; rfl
  refine ⟨?_, ?_, ?_, ?_, ?_, ?_, ?_, ?_⟩
  · rw [key]
    simp only [getPath, hlook]
    rw [lookupField_removeKey_ne _ _ _ (by decide), lookupField_removeKey_ne _ _ _ (by decide),
      lookupField_removeKey_ne _ _ _ (by decide), lookupField_removeKey_ne _ _ _ (by decide),
      lookupField_upsertField_ne _ _ _ _ (by decide), lookupField_upsertField_self]
  · rw [key]
    simp only [getPath, hlook]
    rw [lookupField_removeKey_ne _ _ _ (by decide), lookupField_removeKey_ne _ _ _ (by decide),
      lookupField_removeKey_ne _ _ _ (by decide), lookupField_removeKey_ne _ _ _ (by decide),
      lookupField_upsertField_self]
  · rw [key]
    simp only [getPath, hlook]
    rw [lookupField_removeKey_ne _ _ _ (by decide), lookupField_removeKey_ne _ _ _ (by decide),
      lookupField_removeKey_ne _ _ _ (by decide), lookupField_removeKey_self]
  · rw [key]
    simp only [getPath, hlook]
    rw [lookupField_removeKey_ne _ _ _ (by decide), lookupField_removeKey_ne _ _ _ (by decide),
      lookupField_removeKey_self]
  · rw [key]
    simp only [getPath, hlook]
    rw [lookupField_removeKey_ne _ _ _ (by decide), lookupField_removeKey_self]
  · rw [key]
    simp only [getPath, hlook]
    rw [lookupField_removeKey_self]
  · intro q rest hq
    rw [key]
    simp only [getPath, lookupField_updateField_ne _ _ _ _ hq]
  · intro k rest hk
    simp only [List.mem_cons, List.not_mem_nil, or_false, not_or] at hk
    obtain ⟨h1, h2, h3, h4, h5, h6⟩ := hk
    rw [key]
    simp only [getPath, hlook, hm]
    rw [lookupField_removeKey_ne _ _ _ h6, lookupField_removeKey_ne _ _ _ h5,
      lookupField_removeKey_ne _ _ _ h4, lookupField_removeKey_ne _ _ _ h3,
      lookupField_upsertField_ne _ _ _ _ h2, lookupField_upsertField_ne _ _ _ _ h1]

/-- Claim C8 (witness): the transform applied to a concrete preview XR
renames it, clears the identity fields, and leaves spec untouched. -/
theorem c8_preview_transform_frame_witness :
    getPath
        (previewTransform "mill"
          (J.obj [("metadata",
                    J.obj [("name", J.str "pr-123-mill"), ("uid", J.str "abc"),
                           ("resourceVersion", J.str "7"), ("labels", J.obj [])]),
                  ("spec", J.obj [("size", J.num 3)])]))
        ["metadata", "name"] = some (J.str "mill") ∧
    getPath
        (previewTransform "mill"
          (J.obj [("metadata",
                    J.obj [("name", J.str "pr-123-mill"), ("uid", J.str "abc"),
                           ("resourceVersion", J.str "7"), ("labels", J.obj [])]),
                  ("spec", J.obj [("size", J.num 3)])]))
        ["spec"] = some (J.obj [("size", J.num 3)]) := by
  have h := c8_preview_transform_frame
    [("metadata",
       J.obj [("name", J.str "pr-123-mill"), ("uid", J.str "abc"),
              ("resourceVersion", J.str "7"), ("labels", J.obj [])]),
     ("spec", J.obj [("size", J.num 3)])]
    [("name", J.str "pr-123-mill"), ("uid", J.str "abc"),
     ("resourceVersion", J.str "7"), ("labels", J.obj [])]
    "mill" rfl
  refine ⟨h.1, ?_⟩
  have h7 := h.2.2.2.2.2.2.1 "spec" [] (by decide)
  rw [h7]
  rfl

/-! ## Claim C7 — sanitizer idempotence -/

/-- Helper: lookup over an append scans the left list first. -/
theorem lookupField_append :
    ∀ (fs gs : List (String × J)) (k : String),
      lookupField (fs ++ gs) k =
        match lookupField fs k with
        | some v => some v
        | none => lookupField gs k
  | [], _, _ => rfl
  | (k1, v1) :: rest, gs, k => by
    by_cases hk : k1 = k
    · simp [lookupField, hk]
    · simp [lookupField, hk, lookupField_append rest gs k]

/-- Helper: setting under one head key does not disturb lookups under a
different head key. -/
theorem getPath_setPath_ne_head (x : J) (a : String) (p2 : List String) (v : J)
    (q : String) (rest : List String) (hq : q ≠ a) :
    getPath (setPath x (a :: p2) v) (q :: rest) = getPath x (q :: rest) := by
  cases x with
  | obj fs =>
    cases p2 with
    | nil =>
      simp only [setPath, getPath]
      rw [lookupField_upsertField_ne _ _ _ _ hq]
    | cons b p2' =>
      simp only [setPath]
      cases hl : lookupField fs a with
      | some w =>
        cases w with
        | obj m =>
          simp only [getPath]
          rw [lookupField_updateField_ne _ _ _ _ hq]
        | null => simp [getPath]
        | boolv _ => simp [getPath]
        | num _ => simp [getPath]
        | str _ => simp [getPath]
        | arr _ => simp [getPath]
      | none =>
        simp only [getPath]
        rw [lookupField_append]
        have hone : lookupField [(a, setPath (J.obj []) (b :: p2') v)] q = none := by
          have : ¬ a = q := fun he => hq he.symm
          simp [lookupField, this]
        rw [hone]
        cases lookupField fs q <;> rfl
  | null => rfl
  | boolv _ => rfl
  | num _ => rfl
  | str _ => rfl
  | arr _ => rfl

/-- Helper: removing under one head key does not disturb lookups under
a different head key. -/
theorem getPath_removePath_ne_head (x : J) (a : String) (p2 : List String)
    (q : String) (rest : List String) (hq : q ≠ a) :
    getPath (removePath x (a :: p2)) (q :: rest) = getPath x (q :: rest) := by
  cases x with
  | obj fs =>
    cases p2 with
    | nil =>
      simp only [removePath, getPath]
      rw [lookupField_removeKey_ne _ _ _ hq]
    | cons b p2' =>
      simp only [removePath]
      cases hl : lookupField fs a with
      | some w =>
        cases w with
        | obj m =>
          simp only [getPath]
          rw [lookupField_updateField_ne _ _ _ _ hq]
        | null => simp [getPath]
        | boolv _ => simp [getPath]
        | num _ => simp [getPath]
        | str _ => simp [getPath]
        | arr _ => simp [getPath]
      | none => simp [getPath]
  | null => rfl
  | boolv _ => rfl
  | num _ => rfl
  | str _ => rfl
  | arr _ => rfl

/-- Helper: inversion of a successful two-segment lookup. -/
theorem getPath_two_inv (fs : List (String × J)) (a b : String) (v : J)
    (h : getPath (J.obj fs) [a, b] = some v) :
    ∃ m, lookupField fs a = some (J.obj m) ∧ lookupField m b = some v := by
  simp only [getPath] at h
  cases hl : lookupField fs a with
  | none => rw [hl] at h; simp at h
  | some w =>
    rw [hl] at h
    cases w with
    | obj m =>
      refine ⟨m, rfl, ?_⟩
      simp only [getPath] at h
      cases hlb : lookupField m b with
      | none => rw [hlb] at h; simp at h
      | some w => rw [hlb] at h; exact h
    | null => simp [getPath] at h
    | boolv _ => simp [getPath] at h
    | num _ => simp [getPath] at h
    | str _ => simp [getPath] at h
    | arr _ => simp [getPath] at h

/-- Helper: a two-segment remove empties exactly that slot. -/
theorem getPath_removePath_two_self (fs m : List (String × J)) (a b : String)
    (h : lookupField fs a = some (J.obj m)) :
    getPath (removePath (J.obj fs) [a, b]) [a, b] = none := by
  rw [removePath_two fs a b m h]
  simp only [getPath]
  rw [lookupField_updateField_self, h]
  simp only [Option.map_some']
  rw [show removePath (J.obj m) [b] = J.obj (removeKey m b) from rfl]
  simp only [getPath]
  rw [lookupField_removeKey_self]

/-- Helper: a two-segment set stores exactly that value. -/
theorem getPath_setPath_two_self (fs m : List (String × J)) (a b : String) (v : J)
    (h : lookupField fs a = some (J.obj m)) :
    getPath (setPath (J.obj fs) [a, b] v) [a, b] = some v := by
  rw [setPath_two fs a b v m h]
  simp only [getPath]
  rw [lookupField_updateField_self, h]
  simp only [Option.map_some']
  rw [show setPath (J.obj m) [b] v = J.obj (upsertField m b v) from rfl]
  simp only [getPath]
  rw [lookupField_upsertField_self]

/-- Helper: general inversion of a successful two-segment lookup. -/
theorem getPath_two_inv' (x : J) (a b : String) (v : J) (h : getPath x [a, b] = some v) :
    ∃ fs m, x = J.obj fs ∧ lookupField fs a = some (J.obj m) ∧ lookupField m b = some v := by
  cases x with
  | obj fs =>
    obtain ⟨m, hm, hb⟩ := getPath_two_inv fs a b v h
    exact ⟨fs, m, rfl, hm, hb⟩
  | null => simp [getPath] at h
  | boolv _ => simp [getPath] at h
  | num _ => simp [getPath] at h
  | str _ => simp [getPath] at h
  | arr _ => simp [getPath] at h

/-- Helper: reading back a written string map yields exactly it. -/
theorem asStringMap_stringMapToJ :
    ∀ (entries : List (String × String)),
      asStringMap (some (stringMapToJ entries)) = some entries
  | [] => rfl
  | (k, v) :: rest => by
    have ih := asStringMap_stringMapToJ rest
    simp only [stringMapToJ, asStringMap, List.map_cons, List.foldr_cons] at ih ⊢
    rw [ih]

/-- Helper: keys kept because they do not match cannot match. -/
theorem filter_match_filter_not (m : String → Bool) :
    ∀ (entries : List (String × String)),
      (entries.filter (fun kv => !m kv.1)).filter (fun kv => m kv.1) = []
  | [] => rfl
  | (k, v) :: rest => by
    by_cases hm : m k <;>
      simp [hm, filter_match_filter_not m rest]

/-- Helper: an equals rule whose condition nowhere holds is a no-op. -/
theorem applyRule_noStrip (engine : RegexEngine) (x : J) (r : StripRule) (hpat : r.pat = "")
    (h : ∀ v, getPath x (splitPath r.path) = some v → shouldStrip v r = false) :
    applyRule engine x r = (x, []) := by
  unfold applyRule
  simp only [hpat, ne_eq, not_true_eq_false, false_and, if_false]
  cases hg : getPath x (splitPath r.path) with
  | none => simp
  | some v => simp [h v hg]

/-- Helper: the key-pattern strip on a two-segment map path is
idempotent: a second application finds no matching keys. -/
theorem stripMatchingKeys_idem (engine : RegexEngine) (a b : String) (r : StripRule) (x : J) :
    (stripMatchingKeys engine [a, b] r (stripMatchingKeys engine [a, b] r x).1).1 =
      (stripMatchingKeys engine [a, b] r x).1 := by
  unfold stripMatchingKeys
  cases h1 : asStringMap (getPath x [a, b]) with
  | none => simp [h1]
  | some entries =>
    cases h2 : engine r.pat with
    | none => simp [h1, h2]
    | some matcher =>
      by_cases h3 : (entries.filter (fun kv => matcher kv.1)).isEmpty
      · simp [h1, h2, h3]
      · simp only [h1, h2, h3, Bool.false_eq_true, if_false]
        obtain ⟨w, hw⟩ : ∃ w, getPath x [a, b] = some w := by
          cases hg : getPath x [a, b] with
          | none => rw [hg] at h1; simp [asStringMap] at h1
          | some w => exact ⟨w, rfl⟩
        obtain ⟨fs, m, hx, hla, _⟩ := getPath_two_inv' x a b w hw
        subst hx
        have hset := getPath_setPath_two_self fs m a b
          (stringMapToJ (entries.filter (fun kv => !matcher kv.1))) hla
        rw [hset, asStringMap_stringMapToJ]
        simp [filter_match_filter_not]

/-- Helper: the annotations pattern rule never changes values outside
the metadata subtree. -/
theorem applyRule_ann_preserves (engine : RegexEngine) (r : StripRule) (y : J)
    (hpath : r.path = "metadata.annotations") (q : String) (rest : List String)
    (hq : q ≠ "metadata") :
    getPath ((applyRule engine y r).1) (q :: rest) = getPath y (q :: rest) := by
  unfold applyRule
  by_cases hpat : r.pat ≠ ""
  · rw [hpath, if_pos ⟨hpat, rfl⟩]
    unfold stripMatchingKeys
    cases h1 : asStringMap (getPath y ["metadata", "annotations"]) with
    | none => simp
    | some entries =>
      cases h2 : engine r.pat with
      | none => simp
      | some matcher =>
        by_cases h3 : (entries.filter (fun kv => matcher kv.1)).isEmpty
        · simp [h3]
        · simp only [h3, Bool.false_eq_true, if_false]
          exact getPath_setPath_ne_head y "metadata" ["annotations"] _ q rest hq
  · rw [hpath]
    rw [if_neg (fun hc => hpat hc.1), if_neg (fun hc => hpat hc.1)]
    rw [show splitPath "metadata.annotations" = ["metadata", "annotations"] from rfl]
    cases hg : getPath y ["metadata", "annotations"] with
    | none => simp
    | some v =>
      by_cases hs : shouldStrip v r
      · simp only [hs, if_true]
        exact getPath_removePath_ne_head y "metadata" ["annotations"] q rest hq
      · simp [hs]

/-- Helper: after an equals rule on a two-segment path ran once, the
value at its own path can no longer satisfy the strip condition. -/
theorem applyRule_eq_rule_stable (engine : RegexEngine) (x : J) (r : StripRule)
    (a b : String) (hpat : r.pat = "") (hsplit : splitPath r.path = [a, b]) :
    ∀ v, getPath ((applyRule engine x r).1) [a, b] = some v → shouldStrip v r = false := by
  intro v hv
  unfold applyRule at hv
  simp only [hpat, ne_eq, not_true_eq_false, false_and, if_false] at hv
  rw [hsplit] at hv
  cases hg : getPath x [a, b] with
  | none => simp [hg] at hv
  | some v0 =>
    by_cases hs : shouldStrip v0 r
    · simp only [hg, hs, if_true] at hv
      obtain ⟨fs, m, hx, hla, _⟩ := getPath_two_inv' x a b v0 hg
      subst hx
      rw [getPath_removePath_two_self fs m a b hla] at hv
      exact absurd hv (by simp)
    · simp only [hg, hs, Bool.false_eq_true, if_false] at hv
      rw [← Option.some.inj hv]
      cases hb : shouldStrip v0 r with
      | false => rfl
      | true => exact absurd hb hs

/-- Helper: a two-rule sanitizer made of an equals rule on a
two-segment non-metadata path followed by an annotations pattern rule
is idempotent. -/
theorem sanitize_pair_idem (engine : RegexEngine) (r1 r2 : StripRule) (a b : String) (xr : J)
    (h1 : r1.pat = "") (hsplit : splitPath r1.path = [a, b]) (ha : a ≠ "metadata")
    (h2 : r2.pat ≠ "") (hp2 : r2.path = "metadata.annotations") :
    (Sanitize engine [r1, r2] (Sanitize engine [r1, r2] xr).1).1 =
      (Sanitize engine [r1, r2] xr).1 := by
  have hfold : ∀ y : J,
      (Sanitize engine [r1, r2] y).1 = (applyRule engine (applyRule engine y r1).1 r2).1 :=
    fun _ => rfl
  have hguard : r2.pat ≠ "" ∧ r2.path = "metadata.annotations" := ⟨h2, hp2⟩
  have e2 : ∀ y, applyRule engine y r2 =
      stripMatchingKeys engine ["metadata", "annotations"] r2 y := by
    intro y
    unfold applyRule
    rw [hp2, if_pos ⟨h2, rfl⟩]
  rw [hfold, hfold]
  have hstable := applyRule_eq_rule_stable engine xr r1 a b h1 hsplit
  have hpres : getPath ((applyRule engine (applyRule engine xr r1).1 r2).1) (a :: [b]) =
      getPath ((applyRule engine xr r1).1) (a :: [b]) :=
    applyRule_ann_preserves engine r2 (applyRule engine xr r1).1 hp2 a [b] ha
  have hA : applyRule engine ((applyRule engine (applyRule engine xr r1).1 r2).1) r1 =
      ((applyRule engine (applyRule engine xr r1).1 r2).1, []) := by
    refine applyRule_noStrip engine _ r1 h1 ?_
    rw [hsplit]
    intro v hv
    rw [hpres] at hv
    exact hstable v hv
  rw [hA]
  rw [e2, e2]
  exact stripMatchingKeys_idem engine "metadata" "annotations" r2 (applyRule engine xr r1).1

/-- Claim C7 (amended): Sanitize is idempotent when run with the
baked-in default rule list, for every XR and every regex engine — the
management-policies equals rule cannot re-fire because its field is
gone or unchanged, and the annotations pattern rule leaves no matching
keys behind. -/
theorem c7_sanitize_default_rules_idempotent (engine : RegexEngine) (xr : J) :
    (Sanitize engine DefaultStripRules (Sanitize engine DefaultStripRules xr).1).1 =
      (Sanitize engine DefaultStripRules xr).1 :=
  sanitize_pair_idem engine _ _ "spec" "managementPolicies" xr rfl rfl
    (by decide) (by decide) rfl

/-- Claim C7 (witness): default-rules idempotence at a concrete XR that
both default rules strip. -/
theorem c7_sanitize_default_rules_idempotent_witness :
    (Sanitize (fun _ => some (fun k => k = "argocd.argoproj.io/sync-wave")) DefaultStripRules
        (Sanitize (fun _ => some (fun k => k = "argocd.argoproj.io/sync-wave"))
          DefaultStripRules
          (J.obj [("metadata", J.obj [("annotations",
                    J.obj [("argocd.argoproj.io/sync-wave", J.str "1"),
                           ("custom/x", J.str "y")])]),
                  ("spec", J.obj [("managementPolicies", J.arr [J.str "Observe"]),
                                  ("name", J.str "x")])])).1).1 =
      (Sanitize (fun _ => some (fun k => k = "argocd.argoproj.io/sync-wave")) DefaultStripRules
        (J.obj [("metadata", J.obj [("annotations",
                  J.obj [("argocd.argoproj.io/sync-wave", J.str "1"),
                         ("custom/x", J.str "y")])]),
                ("spec", J.obj [("managementPolicies", J.arr [J.str "Observe"]),
                                ("name", J.str "x")])])).1 :=
  c7_sanitize_default_rules_idempotent
    (fun _ => some (fun k => k = "argocd.argoproj.io/sync-wave"))
    (J.obj [("metadata", J.obj [("annotations",
              J.obj [("argocd.argoproj.io/sync-wave", J.str "1"),
                     ("custom/x", J.str "y")])]),
            ("spec", J.obj [("managementPolicies", J.arr [J.str "Observe"]),
                            ("name", J.str "x")])])

/-- Claim C7 (counterexample): for arbitrary rule lists Sanitize is not
idempotent — an earlier rule whose equals value matches the emptied
object left by a later rule fires only on the second pass. -/
theorem c7_sanitize_not_idempotent :
    (Sanitize (fun _ => none)
        [{ path := "spec", equals := some (J.obj []), reason := "empty spec" },
         { path := "spec.a", equals := some (J.str "x"), reason := "noise" }]
        ((Sanitize (fun _ => none)
          [{ path := "spec", equals := some (J.obj []), reason := "empty spec" },
           { path := "spec.a", equals := some (J.str "x"), reason := "noise" }]
          (J.obj [("spec", J.obj [("a", J.str "x")])])).1)).1 ≠
      (Sanitize (fun _ => none)
        [{ path := "spec", equals := some (J.obj []), reason := "empty spec" },
         { path := "spec.a", equals := some (J.str "x"), reason := "noise" }]
        (J.obj [("spec", J.obj [("a", J.str "x")])])).1 := by
  decide

/-! ## Claim C4 — debounce coalescing -/

/-- Helper: with at most one entry per PR, the key count says whether
the entry exists. -/
theorem count_keys_eq_prEntry :
    ∀ (st : List (Nat × Nat)) (pr : Nat), (st.map Prod.fst).count pr ≤ 1 →
      (st.map Prod.fst).count pr = if (prEntry st pr).isSome then 1 else 0
  | [], _, _ => rfl
  | (k, d) :: st, pr, h => by
    by_cases hk : k = pr
    · subst hk
      simp only [List.map_cons, List.count_cons_self] at h ⊢
      have h0 : (st.map Prod.fst).count k = 0 := by omega
      simp [prEntry, List.find?, h0]
    · simp only [List.map_cons, List.count_cons_of_ne (fun he => hk he.symm)] at h ⊢
      rw [prEntry, List.find?_cons_of_neg _ (by simpa using hk)]
      exact count_keys_eq_prEntry st pr h

/-- Helper: the fired bucket contains the tracked PR exactly when its
deadline has passed. -/
theorem count_fired :
    ∀ (st : List (Nat × Nat)) (pr t : Nat), (st.map Prod.fst).count pr ≤ 1 →
      ((st.filter (fun e => e.2 ≤ t)).map Prod.fst).count pr =
        if (match prEntry st pr with
            | some d => decide (d ≤ t)
            | none => false) then 1 else 0
  | [], _, _, _ => rfl
  | (k, d) :: st, pr, t, h => by
    by_cases hk : k = pr
    · subst hk
      simp only [List.map_cons, List.count_cons_self] at h
      have h0 : (st.map Prod.fst).count k = 0 := by omega
      have hf : ((st.filter (fun e => e.2 ≤ t)).map Prod.fst).count k = 0 := by
        have hsub : ((st.filter (fun e => e.2 ≤ t)).map Prod.fst).Sublist (st.map Prod.fst) :=
          (List.filter_sublist st).map Prod.fst
        have := hsub.count_le k
        omega
      have hfind : List.find? (fun e => decide (e.1 = k)) ((k, d) :: st) = some (k, d) :=
        List.find?_cons_of_pos _ (by simp)
      by_cases hd : d ≤ t
      · simp [prEntry, hfind, hd, hf]
      · simp [prEntry, hfind, hd, hf]
    · simp only [List.map_cons, List.count_cons_of_ne (fun he => hk he.symm)] at h
      have ih := count_fired st pr t h
      have hfind : List.find? (fun e => decide (e.1 = pr)) ((k, d) :: st) =
          List.find? (fun e => decide (e.1 = pr)) st :=
        List.find?_cons_of_neg _ (by simpa using hk)
      by_cases hd : d ≤ t
      · simpa [prEntry, hfind, hd, List.count_cons_of_ne (fun he => hk he.symm)] using ih
      · simpa [prEntry, hfind, hd] using ih

/-- Helper: the surviving bucket keeps the tracked PR's entry exactly
when its deadline is still ahead. -/
theorem prEntry_rem :
    ∀ (st : List (Nat × Nat)) (pr t : Nat), (st.map Prod.fst).count pr ≤ 1 →
      prEntry (st.filter (fun e => t < e.2)) pr =
        match prEntry st pr with
        | some d => if t < d then some d else none
        | none => none
  | [], _, _, _ => rfl
  | (k, d) :: st, pr, t, h => by
    by_cases hk : k = pr
    · subst hk
      simp only [List.map_cons, List.count_cons_self] at h
      have h0 : (st.map Prod.fst).count k = 0 := by omega
      have habs : prEntry (st.filter (fun e => t < e.2)) k = none := by
        cases hfind : (st.filter (fun e => t < e.2)).find? (fun e => e.1 = k) with
        | none => simp [prEntry, hfind]
        | some e =>
          exfalso
          have hmem := List.mem_of_find?_eq_some hfind
          have hpred := List.find?_some hfind
          have hkey : e.1 = k := by simpa using hpred
          have hmem' : e ∈ st := (List.filter_sublist st).subset hmem
          have : k ∈ st.map Prod.fst := List.mem_map.mpr ⟨e, hmem', hkey⟩
          rw [← List.count_pos_iff] at this
          omega
      have hfind : List.find? (fun e => decide (e.1 = k)) ((k, d) :: st) = some (k, d) :=
        List.find?_cons_of_pos _ (by simp)
      by_cases hd : t < d
      · have hfind2 : List.find? (fun e => decide (e.1 = k))
            (((k, d) :: st).filter (fun e => t < e.2)) = some (k, d) := by
          have : ((k, d) :: st).filter (fun e => t < e.2) =
              (k, d) :: st.filter (fun e => t < e.2) := by simp [List.filter_cons, hd]
          rw [this]
          exact List.find?_cons_of_pos _ (by simp)
        simp [prEntry, hfind, hfind2, hd]
      · have hcf : ((k, d) :: st).filter (fun e => t < e.2) = st.filter (fun e => t < e.2) := by
          simp [List.filter_cons, hd]
        rw [prEntry, hcf]
        simpa [prEntry, hfind, hd] using habs
    · simp only [List.map_cons, List.count_cons_of_ne (fun he => hk he.symm)] at h
      have ih := prEntry_rem st pr t h
      have hfind : List.find? (fun e => decide (e.1 = pr)) ((k, d) :: st) =
          List.find? (fun e => decide (e.1 = pr)) st :=
        List.find?_cons_of_neg _ (by simpa using hk)
      by_cases hd : t < d
      · have : ((k, d) :: st).filter (fun e => t < e.2) =
            (k, d) :: st.filter (fun e => t < e.2) := by simp [List.filter_cons, hd]
        rw [prEntry, this, List.find?_cons_of_neg _ (by simpa using hk)]
        simpa [prEntry, hfind] using ih
      · have : ((k, d) :: st).filter (fun e => t < e.2) = st.filter (fun e => t < e.2) := by
          simp [List.filter_cons, hd]
        rw [prEntry, this]
        simpa [prEntry, hfind] using ih

/-- Helper: resetting the timer of a present PR stores the new
deadline. -/
theorem prEntry_replace_self :
    ∀ (st : List (Nat × Nat)) (q dl : Nat), st.any (fun e => e.1 = q) = true →
      prEntry (st.map (fun e => if e.1 = q then (q, dl) else e)) q = some dl
  | [], q, dl, h => by simp at h
  | e :: st, q, dl, h => by
    by_cases he : e.1 = q
    · simp [prEntry, he]
    · simp only [List.map_cons, if_neg he]
      rw [prEntry, List.find?_cons_of_neg _ (by simpa using he)]
      have h' : st.any (fun e => e.1 = q) = true := by
        simp only [List.any_cons, Bool.or_eq_true] at h
        rcases h with h | h
        · exact absurd (by simpa using h) he
        · exact h
      exact prEntry_replace_self st q dl h'

/-- Helper: resetting another PR's timer leaves this PR's entry. -/
theorem prEntry_replace_ne :
    ∀ (st : List (Nat × Nat)) (pr q dl : Nat), q ≠ pr →
      prEntry (st.map (fun e => if e.1 = q then (q, dl) else e)) pr = prEntry st pr
  | [], _, _, _, _ => rfl
  | e :: st, pr, q, dl, hq => by
    by_cases he : e.1 = q
    · have hne : ¬ e.1 = pr := by rw [he]; exact hq
      simp only [List.map_cons, if_pos he]
      rw [prEntry, List.find?_cons_of_neg _ (by simpa using hq),
        prEntry, List.find?_cons_of_neg _ (by simpa using hne)]
      exact prEntry_replace_ne st pr q dl hq
    · simp only [List.map_cons, if_neg he]
      by_cases hep : e.1 = pr
      · rw [prEntry, List.find?_cons_of_pos _ (by simpa using hep),
          prEntry, List.find?_cons_of_pos _ (by simpa using hep)]
      · rw [prEntry, List.find?_cons_of_neg _ (by simpa using hep),
          prEntry, List.find?_cons_of_neg _ (by simpa using hep)]
        exact prEntry_replace_ne st pr q dl hq

/-- Helper: after Enqueue, the enqueued PR's deadline is the new one
and every other PR's entry is untouched. -/
theorem prEntry_setTimer (st : List (Nat × Nat)) (pr q dl : Nat) :
    prEntry (setTimer st q dl) pr = if q = pr then some dl else prEntry st pr := by
  unfold setTimer
  by_cases hany : st.any (fun e => e.1 = q)
  · rw [if_pos hany]
    by_cases hq : q = pr
    · subst hq
      rw [if_pos rfl]
      exact prEntry_replace_self st q dl hany
    · rw [if_neg hq]
      exact prEntry_replace_ne st pr q dl hq
  · rw [if_neg hany]
    by_cases hq : q = pr
    · subst hq
      have hnone : st.find? (fun e => e.1 = q) = none := by
        rw [List.find?_eq_none]
        intro e he
        simp only [List.any_eq_true, not_exists, not_and] at hany
        simpa using hany e he
      rw [if_pos rfl, prEntry, List.find?_append, hnone]
      simp
    · have hone : List.find? (fun e => decide (e.1 = pr)) [(q, dl)] = none := by
        simp only [List.find?_singleton]
        simp [hq]
      rw [if_neg hq, prEntry, List.find?_append, hone, Option.or_none]
      rfl

/-- Helper: Enqueue keeps the per-PR entry count at most one. -/
theorem count_keys_setTimer_le (st : List (Nat × Nat)) (pr q dl : Nat)
    (h : (st.map Prod.fst).count pr ≤ 1) :
    ((setTimer st q dl).map Prod.fst).count pr ≤ 1 := by
  unfold setTimer
  by_cases hany : st.any (fun e => e.1 = q)
  · rw [if_pos hany]
    have hmap : (st.map (fun e => if e.1 = q then (q, dl) else e)).map Prod.fst =
        st.map Prod.fst := by
      rw [List.map_map]
      apply List.map_congr_left
      intro e _
      by_cases he : e.1 = q <;> simp [he]
    rw [hmap]
    exact h
  · rw [if_neg hany]
    rw [List.map_append, List.count_append]
    by_cases hq : q = pr
    · subst hq
      have h0 : (st.map Prod.fst).count q = 0 := by
        rw [List.count_eq_zero]
        intro hmem
        obtain ⟨e, he, hfe⟩ := List.mem_map.mp hmem
        simp only [List.any_eq_true, not_exists, not_and] at hany
        exact absurd hfe (by simpa using hany e he)
      simp [h0]
    · have h1 : ([(q, dl)].map Prod.fst).count pr = 0 := by
        simp [List.count_cons, hq]
      omega

/-- Helper: filtering never increases the per-PR entry count. -/
theorem count_keys_filter_le (st : List (Nat × Nat)) (pr : Nat) (p : Nat × Nat → Bool)
    (h : (st.map Prod.fst).count pr ≤ 1) :
    ((st.filter p).map Prod.fst).count pr ≤ 1 := by
  have hsub : ((st.filter p).map Prod.fst).Sublist (st.map Prod.fst) :=
    (List.filter_sublist st).map Prod.fst
  exact le_trans (hsub.count_le pr) h

/-- Helper: the full queue's invocation count for one PR equals the
single-PR projection's count. -/
theorem runQueue_proj (D : Nat) :
    ∀ (es : List (Nat × Nat)) (st : List (Nat × Nat)) (pr : Nat),
      (st.map Prod.fst).count pr ≤ 1 →
      (runQueue D es st).count pr = runPrQueue D (toPrEvents es pr) (prEntry st pr)
  | [], st, pr, h => by
    rw [show runQueue D [] st = st.map Prod.fst from rfl]
    rw [count_keys_eq_prEntry st pr h]
    rw [show toPrEvents [] pr = [] from rfl]
    cases prEntry st pr <;> simp [runPrQueue]
  | (t, q) :: es, st, pr, h => by
    rw [show runQueue D ((t, q) :: es) st =
      (st.filter (fun e => e.2 ≤ t)).map Prod.fst ++
        runQueue D es (setTimer (st.filter (fun e => t < e.2)) q (t + D)) from rfl]
    rw [List.count_append]
    have hrem := count_keys_filter_le st pr (fun e => t < e.2) h
    have hst' := count_keys_setTimer_le (st.filter (fun e => t < e.2)) pr q (t + D) hrem
    rw [runQueue_proj D es _ pr hst', count_fired st pr t h,
      prEntry_setTimer, prEntry_rem st pr t h]
    have hstep2 : runPrQueue D (toPrEvents ((t, q) :: es) pr) (prEntry st pr) =
        (if (match prEntry st pr with
             | some d => decide (d ≤ t)
             | none => false) then 1 else 0) +
          runPrQueue D (toPrEvents es pr)
            (if (q == pr) then some (t + D)
             else if (match prEntry st pr with
                      | some d => decide (d ≤ t)
                      | none => false)
               then none else prEntry st pr) := rfl
    have hstates :
        (if q = pr then some (t + D)
         else match prEntry st pr with
              | some d => if t < d then some d else none
              | none => none) =
        (if (q == pr) then some (t + D)
         else if (match prEntry st pr with
                  | some d => decide (d ≤ t)
                  | none => false)
           then none else prEntry st pr) := by
      by_cases hq : q = pr
      · simp [hq]
      · have hbq : (q == pr) = false := by simpa using hq
        simp only [hq, if_false, hbq, Bool.false_eq_true]
        cases prEntry st pr with
        | none => simp
        | some d =>
          by_cases hd : d ≤ t
          · have hnt : ¬ t < d := by omega
            simp [hd, hnt]
          · have hnt : t < d := by omega
            simp [hd, hnt]
    rw [hstates, hstep2]

/-- Helper: with no pending entry and no enqueues of the tracked PR,
the processor is never invoked for it. -/
theorem runPr_none_no_events (D : Nat) :
    ∀ (es : List (Nat × Bool)), (∀ e ∈ es, e.2 = false) →
      runPrQueue D es none = 0
  | [], _ => rfl
  | (t, b) :: es, h => by
    have hb : b = false := h (t, b) (List.mem_cons_self _ _)
    subst hb
    have htail := runPr_none_no_events D es (fun e he => h e (List.mem_cons_of_mem _ he))
    rw [show runPrQueue D ((t, false) :: es) none =
      (if false then 1 else 0) + runPrQueue D es none from rfl]
    simp [htail]

/-- Helper: a pending entry with no further enqueues of the tracked PR
fires exactly once. -/
theorem runPr_pending_no_events (D : Nat) :
    ∀ (es : List (Nat × Bool)) (d : Nat), (∀ e ∈ es, e.2 = false) →
      runPrQueue D es (some d) = 1
  | [], _, _ => rfl
  | (t, b) :: es, d, h => by
    have hb : b = false := h (t, b) (List.mem_cons_self _ _)
    subst hb
    have htail : ∀ e ∈ es, e.2 = false := fun e he => h e (List.mem_cons_of_mem _ he)
    rw [show runPrQueue D ((t, false) :: es) (some d) =
      (if decide (d ≤ t) then 1 else 0) +
        runPrQueue D es (if decide (d ≤ t) then none else some d) from rfl]
    by_cases hd : d ≤ t
    · have h0 := runPr_none_no_events D es htail
      simp [hd, h0]
    · have h1 := runPr_pending_no_events D es d htail
      simp [hd, h1]

/-- Helper: a pending entry whose deadline is later than every
remaining enqueue of the tracked PR, when those enqueues pairwise lie
within the debounce window, fires exactly once. -/
theorem runPr_pending (D : Nat) :
    ∀ (es : List (Nat × Bool)) (d : Nat),
      (es.map Prod.fst).Pairwise (· ≤ ·) →
      (∀ u ∈ trueTimes es, u < d) →
      (∀ u ∈ trueTimes es, ∀ v ∈ trueTimes es, v < u + D) →
      runPrQueue D es (some d) = 1
  | [], _, _, _, _ => rfl
  | (t, b) :: es, d, hsort, hlt, hspan => by
    have hsort' : (es.map Prod.fst).Pairwise (· ≤ ·) :=
      (List.pairwise_cons.mp (by simpa using hsort)).2
    have hhead : ∀ x ∈ es.map Prod.fst, t ≤ x :=
      (List.pairwise_cons.mp (by simpa using hsort)).1
    cases b with
    | true =>
      have htmem : t ∈ trueTimes ((t, true) :: es) := by simp [trueTimes]
      have htd : t < d := hlt t htmem
      have hnd : ¬ d ≤ t := by omega
      have hmemsub : ∀ u, u ∈ trueTimes es → u ∈ trueTimes ((t, true) :: es) := by
        intro u hu
        simp only [trueTimes, List.filter_cons, if_pos rfl, List.map_cons]
        exact List.mem_cons_of_mem _ hu
      have hrec := runPr_pending D es (t + D) hsort'
        (fun u hu => hspan t htmem u (hmemsub u hu))
        (fun u hu v hv => hspan u (hmemsub u hu) v (hmemsub v hv))
      rw [show runPrQueue D ((t, true) :: es) (some d) =
        (if decide (d ≤ t) then 1 else 0) + runPrQueue D es (some (t + D)) from rfl]
      simp [hnd, hrec]
    | false =>
      have hmemsub : ∀ u, u ∈ trueTimes es → u ∈ trueTimes ((t, false) :: es) := by
        intro u hu
        simpa [trueTimes, List.filter_cons] using hu
      by_cases hne : trueTimes es = []
      · have htail : ∀ e ∈ es, e.2 = false := by
          intro e he
          cases hb : e.2 with
          | false => rfl
          | true =>
            exfalso
            have hmem : e.1 ∈ trueTimes es := by
              unfold trueTimes
              exact List.mem_map.mpr ⟨e, List.mem_filter.mpr ⟨he, by simp [hb]⟩, rfl⟩
            rw [hne] at hmem
            simp at hmem
        rw [show runPrQueue D ((t, false) :: es) (some d) =
          (if decide (d ≤ t) then 1 else 0) +
            runPrQueue D es (if decide (d ≤ t) then none else some d) from rfl]
        by_cases hd : d ≤ t
        · have h0 := runPr_none_no_events D es htail
          simp [hd, h0]
        · have h1 := runPr_pending_no_events D es d htail
          simp [hd, h1]
      · obtain ⟨u0, hu0⟩ := List.exists_mem_of_ne_nil _ hne
        have hu0' : u0 ∈ trueTimes ((t, false) :: es) := hmemsub u0 hu0
        have htu0 : t ≤ u0 := by
          apply hhead
          obtain ⟨e, he, hfe⟩ := List.mem_map.mp hu0
          exact List.mem_map.mpr ⟨e, (List.mem_filter.mp he).1, hfe⟩
        have htd : t < d := lt_of_le_of_lt htu0 (hlt u0 hu0')
        have hnd : ¬ d ≤ t := by omega
        have hrec := runPr_pending D es d hsort'
          (fun u hu => hlt u (hmemsub u hu))
          (fun u hu v hv => hspan u (hmemsub u hu) v (hmemsub v hv))
        rw [show runPrQueue D ((t, false) :: es) (some d) =
          (if decide (d ≤ t) then 1 else 0) +
            runPrQueue D es (if decide (d ≤ t) then none else some d) from rfl]
        simp [hnd, hrec]

/-- Helper: from an empty pending slot, a sorted burst of enqueues of
the tracked PR within the debounce window fires exactly once. -/
theorem runPr_start (D : Nat) :
    ∀ (es : List (Nat × Bool)),
      (es.map Prod.fst).Pairwise (· ≤ ·) →
      trueTimes es ≠ [] →
      (∀ u ∈ trueTimes es, ∀ v ∈ trueTimes es, v < u + D) →
      runPrQueue D es none = 1
  | [], _, hne, _ => absurd rfl hne
  | (t, b) :: es, hsort, hne, hspan => by
    have hsort' : (es.map Prod.fst).Pairwise (· ≤ ·) :=
      (List.pairwise_cons.mp (by simpa using hsort)).2
    cases b with
    | true =>
      have htmem : t ∈ trueTimes ((t, true) :: es) := by simp [trueTimes]
      have hmemsub : ∀ u, u ∈ trueTimes es → u ∈ trueTimes ((t, true) :: es) := by
        intro u hu
        simp only [trueTimes, List.filter_cons, if_pos rfl, List.map_cons]
        exact List.mem_cons_of_mem _ hu
      have hrec := runPr_pending D es (t + D) hsort'
        (fun u hu => hspan t htmem u (hmemsub u hu))
        (fun u hu v hv => hspan u (hmemsub u hu) v (hmemsub v hv))
      rw [show runPrQueue D ((t, true) :: es) none =
        (if false then 1 else 0) + runPrQueue D es (some (t + D)) from rfl]
      simp [hrec]
    | false =>
      have hmemsub : ∀ u, u ∈ trueTimes es → u ∈ trueTimes ((t, false) :: es) := by
        intro u hu
        simpa [trueTimes, List.filter_cons] using hu
      have hne' : trueTimes es ≠ [] := by
        intro hcon
        apply hne
        have hcons : trueTimes ((t, false) :: es) = trueTimes es := by
          simp [trueTimes, List.filter_cons]
        rw [hcons, hcon]
      have hrec := runPr_start D es hsort' hne'
        (fun u hu v hv => hspan u (hmemsub u hu) v (hmemsub v hv))
      rw [show runPrQueue D ((t, false) :: es) none =
        (if false then 1 else 0) + runPrQueue D es none from rfl]
      simp [hrec]

/-- Helper: the tracked PR's enqueue times survive the projection. -/
theorem trueTimes_toPrEvents :
    ∀ (es : List (Nat × Nat)) (pr : Nat), trueTimes (toPrEvents es pr) = prTimes es pr
  | [], _ => rfl
  | (t, q) :: es, pr => by
    have ih := trueTimes_toPrEvents es pr
    by_cases hq : q = pr
    · simp only [toPrEvents, List.map_cons, trueTimes, prTimes, List.filter_cons]
      have hbq : (q == pr) = true := by simpa using hq
      simp only [hbq, hq, if_pos, decide_eq_true_eq]
      simpa [toPrEvents, trueTimes, prTimes, hq] using ih
    · have hbq : (q == pr) = false := by simpa using hq
      simp only [toPrEvents, List.map_cons, trueTimes, prTimes, List.filter_cons, hbq, hq]
      simpa [toPrEvents, trueTimes, prTimes] using ih

/-- Claim C4: debounce coalescing — when every enqueue of one PR in a
time-ordered event trace lies within one debounce window of every
other (n enqueues spanning less than D), the processor runs exactly
once for that PR over the whole trace, timers for other PRs
notwithstanding. -/
theorem c4_debounce_coalesces (D : Nat) (es : List (Nat × Nat)) (pr : Nat)
    (hsort : (es.map Prod.fst).Pairwise (· ≤ ·))
    (hne : prTimes es pr ≠ [])
    (hspan : ∀ u ∈ prTimes es pr, ∀ v ∈ prTimes es pr, v < u + D) :
    (runQueue D es []).count pr = 1 := by
  rw [runQueue_proj D es [] pr (by simp)]
  rw [show prEntry [] pr = none from rfl]
  apply runPr_start D (toPrEvents es pr)
  · have : (toPrEvents es pr).map Prod.fst = es.map Prod.fst := by
      simp [toPrEvents]
    rw [this]
    exact hsort
  · rw [trueTimes_toPrEvents]
    exact hne
  · rw [trueTimes_toPrEvents]
    exact hspan

/-- Claim C4 (witness): the spec's S5 scenario — debounce 50ms, five
enqueues of PR 5 at 10ms intervals — yields exactly one invocation. -/
theorem c4_debounce_coalesces_witness :
    (runQueue 50 [(0, 5), (10, 5), (20, 5), (30, 5), (40, 5)] []).count 5 = 1 :=
  c4_debounce_coalesces 50 [(0, 5), (10, 5), (20, 5), (30, 5), (40, 5)] 5
    (by decide) (by decide) (by decide)

end CrossplanePlan
